import Mathlib

set_option maxRecDepth 10000

/-!
Verification of the mark-files snapshot diff/restore engine.

The definitions below are a shallow embedding of `src/mark-files.cpp`:
the probe result table (a `std::map` from UTF-8 path to `file_infos`),
the change-detection loop of `extract_infos`, the restore loop's
`files::set_stat` call arguments, the worker-count computation, the worker
loop `extract_info`, and the hand-rolled JSON serialization of the snapshot
together with a model of the external JSON parser used to read it back.
-/

/-- The per-file record built by the probing workers
    (`struct file_infos` in mark-files.cpp: sha, ctime, mtime;
    the two timestamps are uint64 epoch seconds, modelled as `Nat`). -/
structure file_infos where
  sha : String
  ctime : Nat
  mtime : Nat
  deriving DecidableEq, Repr

/-- One element of the `to_update` vector
    (the 7-tuple pushed at mark-files.cpp lines 210-212:
    name, ctime-changed flag, old/new ctime, mtime-changed flag, old/new mtime). -/
structure UpdateRec where
  name : String
  ctime_changed : Bool
  old_ctime : Nat
  new_ctime : Nat
  mtime_changed : Bool
  old_mtime : Nat
  new_mtime : Nat
  deriving DecidableEq, Repr

/-- Lookup in the path-keyed result table (`files_infos.find(name)`).
    The table is a `std::map`, modelled as its entry list in iteration order. -/
def mapFind (m : List (String × file_infos)) (k : String) : Option file_infos :=
  match m with
  | [] => none
  | (k', v) :: rest => if k' = k then some v else mapFind rest k

/-- In-place overwrite of the record stored at a key
    (the iterator assignments `it->second.ctime = ...` at lines 197 and 205). -/
def mapSet : List (String × file_infos) → String → file_infos → List (String × file_infos)
  | [], _, _ => []
  | (k', v') :: rest, k, v =>
    if k' = k then (k, v) :: mapSet rest k v else (k', v') :: mapSet rest k v

/-- Insert-or-assign on the sorted result table
    (`files_infos[file.u8string()] = {...}` at lines 93-97; a `std::map`
    keeps its entries sorted by key). -/
def mapInsert : List (String × file_infos) → String → file_infos → List (String × file_infos)
  | [], k, v => [(k, v)]
  | (k', v') :: rest, k, v =>
    if k = k' then (k, v) :: rest
    else if k < k' then (k, v) :: (k', v') :: rest
    else (k', v') :: mapInsert rest k v

/-- Modelled from the spec: JSON document values as produced by the external
    JSON library (nlohmann::json, not part of this repository), restricted to
    the subset of JSON the snapshot format uses: strings, non-negative integer
    numbers, arrays, objects, booleans and null. -/
inductive Json where
  | null : Json
  | bool : Bool → Json
  | num : Nat → Json
  | str : String → Json
  | arr : List Json → Json
  | obj : List (String × Json) → Json

/-- Modelled from the spec: object member lookup of the external JSON library
    (`contains` / `operator[]`). -/
def jGet (l : List (String × Json)) (k : String) : Option Json :=
  match l with
  | [] => none
  | (k', v) :: rest => if k' = k then some v else jGet rest k

/-- The validity check and field extraction for one entry of the prior
    snapshot's "files" array (mark-files.cpp lines 170-181): the entry must
    carry a string "name", a string "sha" and numeric "ctime"/"mtime";
    otherwise the loop `continue`s. -/
def entryFields (e : Json) : Option (String × String × Nat × Nat) :=
  match e with
  | Json.obj l =>
    match jGet l ("name"), jGet l ("sha"), jGet l ("ctime"), jGet l ("mtime") with
    | some (Json.str name), some (Json.str sha), some (Json.num c), some (Json.num m) =>
      some (name, sha, c, m)
    | _, _, _, _ => none
  | _ => none

/-- The path named by a (valid) prior-snapshot entry. -/
def entryName (e : Json) : Option String :=
  (entryFields e).map (fun f => f.1)

/-- One iteration of the change-detection loop (mark-files.cpp lines 168-213):
    skip invalid entries, skip paths absent from the fresh inventory, skip
    changed checksums; otherwise write each changed timestamp field back to
    its prior value in the in-memory table and push a restoration tuple. -/
def diffOne (st : List (String × file_infos) × List UpdateRec) (e : Json) :
    List (String × file_infos) × List UpdateRec :=
  match entryFields e with
  | none => st
  | some (name, old_sha, old_ctime, old_mtime) =>
    match mapFind st.1 name with
    | none => st
    | some fi =>
      if fi.sha = old_sha then
        let new_ctime := fi.ctime
        let ctime := decide (new_ctime ≠ old_ctime)
        let new_mtime := fi.mtime
        let mtime := decide (new_mtime ≠ old_mtime)
        let fi' : file_infos :=
          { fi with
            ctime := if ctime then old_ctime else fi.ctime,
            mtime := if mtime then old_mtime else fi.mtime }
        if ctime || mtime then
          (mapSet st.1 name fi',
           st.2 ++ [⟨name, ctime, old_ctime, new_ctime, mtime, old_mtime, new_mtime⟩])
        else st
      else st

/-- Extraction of the prior snapshot's files array (mark-files.cpp line 166:
    `saved_db.contains("files") && saved_db["files"].is_array()`). -/
def getFiles (db : Json) : Option (List Json) :=
  match db with
  | Json.obj l =>
    match jGet l ("files") with
    | some (Json.arr es) => some es
    | _ => none
  | _ => none

/-- The whole change-detection pass (mark-files.cpp lines 165-215): iterate
    the prior snapshot's files array over the fresh inventory, returning the
    possibly rewritten inventory and the `to_update` restoration records. -/
def detectChanges (m0 : List (String × file_infos)) (db : Json) :
    List (String × file_infos) × List UpdateRec :=
  match getFiles db with
  | some es => es.foldl diffOne (m0, [])
  | none => (m0, [])

/-- The argument tuples of the `files::set_stat` calls issued by the restore
    loop (mark-files.cpp lines 221-228): path, ctime-to-restore-or-0,
    atime always 0, mtime-to-restore-or-0. -/
def restoreCalls (tu : List UpdateRec) : List (String × Nat × Nat × Nat) :=
  tu.map (fun u =>
    (u.name,
     (if u.ctime_changed then u.old_ctime else 0),
     0,
     (if u.mtime_changed then u.old_mtime else 0)))

/-- Modelled from the spec: invoking the external TimestampWriter
    (`files::set_stat`, provided by the winpp library, not in this repository)
    on every restoration record; it fails with a recoverable per-file error,
    and the calling code never inspects the outcome. -/
def applyWriter (writer : String → Nat → Nat → Nat → Bool) (tu : List UpdateRec) : List Bool :=
  (restoreCalls tu).map (fun c => writer c.1 c.2.1 c.2.2.1 c.2.2.2)

/-- Modelled from the spec: the TimestampWriter's effect on a file's on-disk
    (ctime, mtime) pair; an argument of 0 is the sentinel meaning
    "do not modify this field". -/
def applyStat (disk : Nat × Nat) (ctimeArg mtimeArg : Nat) : Nat × Nat :=
  ((if ctimeArg = 0 then disk.1 else ctimeArg),
   (if mtimeArg = 0 then disk.2 else mtimeArg))

/-- Worker-count computation for the probing pool (mark-files.cpp lines
    133-134: `nb_threads = min(files.size(), hardware_concurrency())`). -/
def nb_threads (nbFiles maxCpu : Nat) : Nat := min nbFiles maxCpu

/-- The worker loop body (`extract_info`, mark-files.cpp lines 69-101), one
    worker draining the whole queue: each file is probed by the external
    stat/hash collaborator and published into the result table. The loop body
    contains no handler for a probe failure, so a failure propagates out of
    the loop (in the program, out of the thread function). -/
def processFiles (probe : String → Except String file_infos) :
    List String → List (String × file_infos) → Except String (List (String × file_infos))
  | [], acc => Except.ok acc
  | f :: rest, acc =>
    match probe f with
    | Except.error e => Except.error e
    | Except.ok fi => processFiles probe rest (mapInsert acc f fi)

/-- Decimal digit character for one digit value (the decimal rendering used
    by the `fmt::format("{}", ...)` calls that print the two timestamps). -/
def digitChar : Nat → Char
  | 0 => '0' | 1 => '1' | 2 => '2' | 3 => '3' | 4 => '4'
  | 5 => '5' | 6 => '6' | 7 => '7' | 8 => '8' | _ => '9'

/-- Accumulator worker for the decimal rendering of a `Nat`; the fuel is
    always at least the number, so it never runs out. -/
def renderNatAux : Nat → Nat → List Char → List Char
  | 0, _, acc => acc
  | Nat.succ fuel, n, acc =>
    if n < 10 then digitChar n :: acc
    else renderNatAux fuel (n / 10) (digitChar (n % 10) :: acc)

/-- Decimal rendering of a timestamp, as printed by
    `fmt::format` for the ctime and mtime fields (lines 248-249, 256-260). -/
def renderNatChars (n : Nat) : List Char := renderNatAux (n + 1) n []

/-- The backslash escaping applied to each path key before writing
    (`std::regex_replace(k, std::regex("\\\\"), "\\\\")` at line 257:
    every backslash in the key is doubled; no other character is escaped). -/
def escChars : List Char → List Char
  | [] => []
  | c :: cs => if c = '\\' then '\\' :: '\\' :: escChars cs else c :: escChars cs

/-- Left-aligned space padding to a given width, as done by the `fmt`
    format specifier `{:<N}` applied to the quoted name (lines 246, 256-257);
    a value at least as long as the width is left unpadded. -/
def padRight (l : List Char) (n : Nat) : List Char :=
  l ++ List.replicate (n - l.length) ' '

/-- Longest path key of the table (mark-files.cpp lines 239-242). -/
def maxKeyLen (fs : List (String × file_infos)) : Nat :=
  fs.foldl (fun acc kv => if acc < kv.1.length then kv.1.length else acc) 0

/-- The key the serializer compares against to decide the trailing comma
    (`files_infos.rbegin()->first` at line 262: the last key in map order). -/
def lastKey (fs : List (String × file_infos)) : String :=
  match fs.getLast? with
  | some kv => kv.1
  | none => ""

/-- Literal text before the padded name value: `    { "name": "`. -/
def p1Chars : List Char :=
  [' ', ' ', ' ', ' ', '\x7b', ' ', '"', 'n', 'a', 'm', 'e', '"', ':', ' ', '"']

/-- Literal text between the name value and the sha value: `, "sha": "`. -/
def p2Chars : List Char :=
  [',', ' ', '"', 's', 'h', 'a', '"', ':', ' ', '"']

/-- Literal text between the sha value and the ctime value: `", "ctime": `. -/
def p3Chars : List Char :=
  ['"', ',', ' ', '"', 'c', 't', 'i', 'm', 'e', '"', ':', ' ']

/-- Literal text between the ctime value and the mtime value: `, "mtime": `. -/
def p4Chars : List Char :=
  [',', ' ', '"', 'm', 't', 'i', 'm', 'e', '"', ':', ' ']

/-- Literal text closing an entry: ` }`. -/
def p5Chars : List Char := [' ', '\x7d']

/-- Header of the written snapshot file (lines 251-252). -/
def hdrChars : List Char :=
  ['\x7b', '\n', ' ', ' ', '"', 'f', 'i', 'l', 'e', 's', '"', ':', ' ', '[', '\n']

/-- Footer of the written snapshot file (lines 265-266). -/
def ftrChars : List Char := [' ', ' ', ']', '\n', '\x7d']

/-- One serialized entry line without its separator
    (line 256: `fmt::format(line_fmt, escaped-key + quote, sha, ctime, mtime)`
    wrapped in `    { ` and ` }`). -/
def entryCore (maxLen : Nat) (k : String) (fi : file_infos) : List Char :=
  p1Chars ++ padRight (escChars k.data ++ ['"']) maxLen
  ++ p2Chars ++ fi.sha.data
  ++ p3Chars ++ renderNatChars fi.ctime
  ++ p4Chars ++ renderNatChars fi.mtime
  ++ p5Chars

/-- One serialized entry line with its separator: a comma follows every entry
    whose key is not the last key of the map (line 262), then a newline. -/
def entryChars (maxLen : Nat) (last : String) (k : String) (fi : file_infos) : List Char :=
  entryCore maxLen k fi ++ (if k = last then [] else [',']) ++ ['\n']

/-- The full serialized snapshot text (mark-files.cpp lines 244-266). -/
def saveChars (fs : List (String × file_infos)) : List Char :=
  hdrChars
  ++ (fs.map (fun kv => entryChars (maxKeyLen fs) (lastKey fs) kv.1 kv.2)).flatten
  ++ ftrChars

/-- The snapshot file content written by `extract_infos` (line 269). -/
def saveContent (fs : List (String × file_infos)) : String :=
  String.mk (saveChars fs)

/-- Whitespace recognized between JSON tokens. -/
def isWsChar (c : Char) : Bool :=
  c = ' ' || c = '\n' || c = '\t' || c = '\r'

/-- Skip inter-token whitespace. -/
def skipWs : List Char → List Char
  | [] => []
  | c :: cs => if isWsChar c then skipWs cs else c :: cs

/-- JSON string escape sequences (after a backslash) understood by the
    parser model; `\u` escapes are left out, the snapshot format and the
    claims never produce them. -/
def unescapeChar (c : Char) : Option Char :=
  if c = '"' then some '"'
  else if c = '\\' then some '\\'
  else if c = '/' then some '/'
  else if c = 'n' then some '\n'
  else if c = 't' then some '\t'
  else if c = 'r' then some '\r'
  else none

/-- Parse the body of a JSON string literal (the opening quote already
    consumed), rejecting raw control characters as strict JSON does. -/
def parseStringBody : List Char → Option (List Char × List Char)
  | [] => none
  | c :: cs =>
    if c = '"' then some ([], cs)
    else if c = '\\' then
      match cs with
      | [] => none
      | e :: cs' =>
        match unescapeChar e with
        | none => none
        | some u =>
          match parseStringBody cs' with
          | none => none
          | some (s, r) => some (u :: s, r)
    else if c.toNat < 32 then none
    else
      match parseStringBody cs with
      | none => none
      | some (s, r) => some (c :: s, r)

/-- Decimal digit value of a character. -/
def digitVal (c : Char) : Nat := c.toNat - 48

/-- Consume a run of decimal digits, folding them into an accumulator. -/
def parseNatAux : Nat → List Char → Nat × List Char
  | acc, [] => (acc, [])
  | acc, c :: cs => if c.isDigit then parseNatAux (acc * 10 + digitVal c) cs else (acc, c :: cs)

/-- Parse a non-negative integer literal (at least one digit). -/
def parseNatFrom : List Char → Option (Nat × List Char)
  | [] => none
  | c :: cs => if c.isDigit then some (parseNatAux 0 (c :: cs)) else none

/-- Mode tag for the single-function recursive-descent JSON parser:
    parse one value, the members of an object, or the elements of an array. -/
inductive ParseMode where
  | val : ParseMode
  | members : List (String × Json) → ParseMode
  | elems : List Json → ParseMode

/-- Modelled from the spec: the external JSON parser (`nlohmann::json::parse`,
    a third-party library, not part of this repository), as a fueled
    recursive-descent parser over the integer-valued JSON subset the snapshot
    format uses (no floats, no negative numbers, no `\u` escapes). -/
def parseCore : Nat → ParseMode → List Char → Option (Json × List Char)
  | 0, _, _ => none
  | Nat.succ fuel, ParseMode.val, cs =>
    match skipWs cs with
    | [] => none
    | c :: rest =>
      if c = '"' then
        match parseStringBody rest with
        | none => none
        | some (s, r) => some (Json.str (String.mk s), r)
      else if c = '\x7b' then
        match skipWs rest with
        | '\x7d' :: r2 => some (Json.obj [], r2)
        | _ => parseCore fuel (ParseMode.members []) rest
      else if c = '[' then
        match skipWs rest with
        | ']' :: r2 => some (Json.arr [], r2)
        | _ => parseCore fuel (ParseMode.elems []) rest
      else if c.isDigit then
        match parseNatFrom (c :: rest) with
        | none => none
        | some (n, r) => some (Json.num n, r)
      else
        match c :: rest with
        | 'n' :: 'u' :: 'l' :: 'l' :: r => some (Json.null, r)
        | 't' :: 'r' :: 'u' :: 'e' :: r => some (Json.bool true, r)
        | 'f' :: 'a' :: 'l' :: 's' :: 'e' :: r => some (Json.bool false, r)
        | _ => none
  | Nat.succ fuel, ParseMode.members acc, cs =>
    match skipWs cs with
    | '"' :: rest =>
      match parseStringBody rest with
      | none => none
      | some (k, r1) =>
        match skipWs r1 with
        | ':' :: r2 =>
          match parseCore fuel ParseMode.val r2 with
          | none => none
          | some (v, r3) =>
            match skipWs r3 with
            | ',' :: r4 => parseCore fuel (ParseMode.members (acc ++ [(String.mk k, v)])) r4
            | '\x7d' :: r4 => some (Json.obj (acc ++ [(String.mk k, v)]), r4)
            | _ => none
        | _ => none
    | _ => none
  | Nat.succ fuel, ParseMode.elems acc, cs =>
    match parseCore fuel ParseMode.val cs with
    | none => none
    | some (v, r1) =>
      match skipWs r1 with
      | ',' :: r2 => parseCore fuel (ParseMode.elems (acc ++ [v])) r2
      | ']' :: r2 => some (Json.arr (acc ++ [v]), r2)
      | _ => none

/-- Parse one JSON value spanning a whole string (trailing whitespace only). -/
def parseJson (s : String) : Option Json :=
  match parseCore (s.length + 1) ParseMode.val s.data with
  | some (v, r) => if (skipWs r).isEmpty then some v else none
  | none => none

/-- The prior-snapshot read of `extract_infos` (mark-files.cpp lines 156-162):
    a stream that is not `good()` (missing or unreadable file) is skipped,
    leaving the database null; a readable stream is handed to `json::parse`,
    whose exception on malformed input propagates out of `exec`. -/
def loadPrior (priorFile : Option String) : Except String Json :=
  match priorFile with
  | none => Except.ok Json.null
  | some s =>
    match parseJson s with
    | some j => Except.ok j
    | none => Except.error ("parse error")

/-- The load side of the snapshot store: parse the file text and extract the
    valid entries of its files array, exactly as the restore pass reads a
    prior snapshot (mark-files.cpp lines 156-186). -/
def loadEntries (s : String) : Option (List (String × String × Nat × Nat)) :=
  match parseJson s with
  | none => none
  | some db =>
    match getFiles db with
    | none => none
    | some es => some (es.filterMap entryFields)

/-- The body of `extract_infos` after probing (mark-files.cpp lines 148-270):
    fatal empty-inventory check, then (when restoring) the prior-snapshot
    read and the change-detection pass, then the snapshot write. The result
    carries the final table, the restoration records and the written file
    content; an `Except.error` models the thrown exception, in which case no
    snapshot file content is produced. -/
def extract_infos (files_infos : List (String × file_infos)) (restore : Bool)
    (priorFile : Option String) (canWrite : Bool) :
    Except String (List (String × file_infos) × List UpdateRec × String) :=
  if files_infos.isEmpty then Except.error ("empty directory")
  else
    match (if restore then loadPrior priorFile else Except.ok Json.null) with
    | Except.error e => Except.error e
    | Except.ok db =>
      let res := if restore then detectChanges files_infos db else (files_infos, [])
      if canWrite then Except.ok (res.1, res.2, saveContent res.1)
      else Except.error ("cannot write file")

/-- The exit code produced by `main` (mark-files.cpp lines 337-359):
    0 on success, -1 when `extract_infos` throws. -/
def mainRet (files_infos : List (String × file_infos)) (restore : Bool)
    (priorFile : Option String) (canWrite : Bool) : Int :=
  match extract_infos files_infos restore priorFile canWrite with
  | Except.ok _ => 0
  | Except.error _ => -1

/-- The JSON value describing one snapshot entry, as the parser recovers it
    from the serialized form. -/
def entryJson (k : String) (fi : file_infos) : Json :=
  Json.obj [("name", Json.str k), ("sha", Json.str fi.sha),
            ("ctime", Json.num fi.ctime), ("mtime", Json.num fi.mtime)]

/-- Path keys the serializer represents faithfully: no double quote and no
    control character (backslashes are fine, they are escaped on write). -/
def nameOk (s : String) : Prop := ∀ c ∈ s.data, c ≠ '"' ∧ 32 ≤ c.toNat

/-- Fingerprint strings the serializer represents faithfully: written with no
    escaping at all, so additionally no backslash. -/
def shaOk (s : String) : Prop := ∀ c ∈ s.data, c ≠ '"' ∧ c ≠ '\\' ∧ 32 ≤ c.toNat

instance nameOkDec (s : String) : Decidable (nameOk s) :=
  List.decidableBAll _ s.data

instance shaOkDec (s : String) : Decidable (shaOk s) :=
  List.decidableBAll _ s.data

/-- A concrete prior snapshot database with one entry for path "a",
    fingerprint "x" and both timestamps 100. -/
def priorDb0 : Json :=
  Json.obj [("files", Json.arr [Json.obj
    [("name", Json.str ("a")), ("sha", Json.str ("x")),
     ("ctime", Json.num 100), ("mtime", Json.num 100)]])]

/-- A concrete prior entry for path "a": fingerprint "x", ctime 2, mtime 7. -/
def entA : Json :=
  Json.obj [("name", Json.str ("a")), ("sha", Json.str ("x")),
            ("ctime", Json.num 2), ("mtime", Json.num 7)]

/-- A concrete prior entry for path "b": fingerprint "z", ctime 3, mtime 4. -/
def entB : Json :=
  Json.obj [("name", Json.str ("b")), ("sha", Json.str ("z")),
            ("ctime", Json.num 3), ("mtime", Json.num 4)]

/-- A concrete prior snapshot database holding `entA` and `entB`. -/
def dbAB : Json := Json.obj [("files", Json.arr [entA, entB])]

/-- A concrete prior entry for path "a" whose stored ctime and mtime are
    both the sentinel value 0: fingerprint "x". -/
def entZeroBoth : Json :=
  Json.obj [("name", Json.str ("a")), ("sha", Json.str ("x")),
            ("ctime", Json.num 0), ("mtime", Json.num 0)]

/-- A concrete prior snapshot database holding only `entZeroBoth`. -/
def dbZeroBoth : Json := Json.obj [("files", Json.arr [entZeroBoth])]

/-- C7: a probe pass that leaves the result table empty makes the run fail
    with the fatal empty-inventory error ("empty directory"), the process
    exit code is non-zero (-1), and no snapshot file content is produced. -/
theorem empty_inventory_fatal (restore : Bool) (priorFile : Option String) (canWrite : Bool) :
    extract_infos [] restore priorFile canWrite = Except.error ("empty directory")
    ∧ mainRet [] restore priorFile canWrite = -1
    ∧ ∀ r, extract_infos [] restore priorFile canWrite ≠ Except.ok r := by
  have h1 : extract_infos [] restore priorFile canWrite = Except.error ("empty directory") := rfl
  exact ⟨h1, rfl, fun r hr => Except.noConfusion (h1.symm.trans hr)⟩

/-- Counterexample to C9 as stated: with one path queued and a platform
    reporting hardware concurrency 0 (which the C++ standard permits),
    the worker count is 0, not at least 1. -/
theorem worker_count_cex :
    (["a"] : List String) ≠ []
    ∧ nb_threads (["a"] : List String).length 0 = 0
    ∧ ¬ 1 ≤ nb_threads (["a"] : List String).length 0 := by
  decide

/-- C9 amended: the worker count equals min(number of paths, reported
    hardware parallelism); it is at least 1 whenever the reported
    parallelism is at least 1 (there is no explicit minimum-1 clamp), and
    never exceeds the number of paths. -/
theorem worker_count_formula (paths : List String) (maxCpu : Nat)
    (h1 : paths ≠ []) (h2 : 1 ≤ maxCpu) :
    nb_threads paths.length maxCpu = min paths.length maxCpu
    ∧ 1 ≤ nb_threads paths.length maxCpu
    ∧ nb_threads paths.length maxCpu ≤ paths.length := by
  have hl : 1 ≤ paths.length := List.length_pos.mpr h1
  exact ⟨rfl, le_min hl h2, min_le_left _ _⟩

/-- Witness for `worker_count_formula` at two paths and parallelism 4. -/
theorem worker_count_formula_witness :
    1 ≤ nb_threads (["a", "b"] : List String).length 4
    ∧ nb_threads (["a", "b"] : List String).length 4 ≤ (["a", "b"] : List String).length :=
  ⟨(worker_count_formula ["a", "b"] 4 (by decide) (by decide)).2.1,
   (worker_count_formula ["a", "b"] 4 (by decide) (by decide)).2.2⟩

/-- Counterexample to C8 as stated: with files "a" and "b" queued and the
    probe failing on "a", the worker loop does not skip "a" and continue;
    the failure propagates out and "b" is never published. -/
theorem probe_failure_cex :
    processFiles
      (fun f => if f = "a" then Except.error ("stat failed") else Except.ok ⟨"h", 1, 2⟩)
      ["a", "b"] [] = Except.error ("stat failed")
    ∧ ∀ m, processFiles
        (fun f => if f = "a" then Except.error ("stat failed") else Except.ok ⟨"h", 1, 2⟩)
        ["a", "b"] [] ≠ Except.ok m := by
  have h1 : processFiles
      (fun f => if f = "a" then Except.error ("stat failed") else Except.ok ⟨"h", 1, 2⟩)
      ["a", "b"] [] = Except.error ("stat failed") := rfl
  exact ⟨h1, fun m hm => Except.noConfusion (h1.symm.trans hm)⟩

/-- C8 amended: the worker loop has no skip path for a failing probe; a
    per-file probe failure aborts the loop with that error, so the failing
    file is not merely excluded and the remaining queued files are not
    processed (in the C++ program the exception escapes the thread). -/
theorem probe_failure_propagates (probe : String → Except String file_infos)
    (f : String) (e : String) (rest : List String) (acc : List (String × file_infos))
    (h : probe f = Except.error e) :
    processFiles probe (f :: rest) acc = Except.error e := by
  simp [processFiles, h]

/-- Witness for `probe_failure_propagates` with an always-failing probe. -/
theorem probe_failure_propagates_witness :
    processFiles (fun _ => Except.error ("stat failed")) ["a", "b"] []
      = Except.error ("stat failed") :=
  probe_failure_propagates (fun _ => Except.error ("stat failed")) ("a") ("stat failed")
    ["b"] [] rfl

/-- Counterexample to C4 as stated: current has "a" probed as
    (sha "x", ctime 200, mtime 100) and the prior snapshot has
    (sha "x", 100, 100); under a writer that fails on every call, the
    restore of "a" fails, yet "a" still appears in the restoration records
    (which carry no failure mark at all) and the in-memory snapshot record
    was still rewritten to the prior timestamps, so the failed restore is
    reflected as changed. -/
theorem restore_failure_ignored_cex :
    (detectChanges [("a", ⟨"x", 200, 100⟩)] priorDb0).2.map (fun u => u.name) = ["a"]
    ∧ mapFind (detectChanges [("a", ⟨"x", 200, 100⟩)] priorDb0).1 ("a") = some ⟨"x", 100, 100⟩
    ∧ applyWriter (fun _ _ _ _ => false) (detectChanges [("a", ⟨"x", 200, 100⟩)] priorDb0).2
        = [false]
    ∧ (detectChanges [("a", ⟨"x", 200, 100⟩)] priorDb0).1 ≠ [("a", ⟨"x", 200, 100⟩)] := by
  decide

/-- C4 amended: the restore loop ignores writer outcomes entirely: every
    restoration record gives rise to exactly one timestamp-writer call with
    the arguments computed from the record, the number of calls equals the
    number of records for every writer (no failure stops the remaining
    restorations), and the records and snapshot are computed before and
    independently of the writer. -/
theorem restore_failure_policy (writer : String → Nat → Nat → Nat → Bool)
    (tu : List UpdateRec) (u : UpdateRec) (hu : u ∈ tu) :
    (applyWriter writer tu).length = tu.length
    ∧ (u.name, (if u.ctime_changed then u.old_ctime else 0), 0,
        (if u.mtime_changed then u.old_mtime else 0)) ∈ restoreCalls tu := by
  constructor
  · simp [applyWriter, restoreCalls]
  · simp only [restoreCalls]
    exact List.mem_map_of_mem _ hu

/-- Witness for `restore_failure_policy` on a one-record list and an
    always-failing writer. -/
theorem restore_failure_policy_witness :
    (applyWriter (fun _ _ _ _ => false) [⟨"a", true, 100, 200, false, 100, 100⟩]).length
      = ([⟨"a", true, 100, 200, false, 100, 100⟩] : List UpdateRec).length
    ∧ (("a" : String), 100, 0, 0)
        ∈ restoreCalls [⟨"a", true, 100, 200, false, 100, 100⟩] := by
  have h := restore_failure_policy (fun _ _ _ _ => false)
    [⟨"a", true, 100, 200, false, 100, 100⟩] ⟨"a", true, 100, 200, false, 100, 100⟩
    (by decide)
  exact ⟨h.1, by simpa using h.2⟩

/-- Counterexample to C3 as stated: with a non-empty inventory and a prior
    snapshot file that is readable but not parsable JSON (here the single
    character left brace), the run fails fatally with a parse error and
    exits non-zero, instead of treating it as an empty baseline. -/
theorem prior_parse_fatal_cex :
    extract_infos [("a", ⟨"x", 1, 2⟩)] true (some ("\x7b")) true = Except.error ("parse error")
    ∧ mainRet [("a", ⟨"x", 1, 2⟩)] true (some ("\x7b")) true = -1 :=
  ⟨rfl, rfl⟩

/-- C3 amended: a missing or unreadable prior snapshot file (stream not
    good) is treated as no prior baseline: the database stays null, the
    diff pass reports nothing to restore, and the run succeeds; but a
    readable prior snapshot whose content does not parse as JSON is a fatal
    failure of the run. -/
theorem prior_snapshot_policy (m0 : List (String × file_infos)) (s : String)
    (hne : m0.isEmpty = false) (hbad : (parseJson s).isNone = true) :
    loadPrior none = Except.ok Json.null
    ∧ detectChanges m0 Json.null = (m0, [])
    ∧ extract_infos m0 true none true = Except.ok (m0, [], saveContent m0)
    ∧ extract_infos m0 true (some s) true = Except.error ("parse error") := by
  have hb : parseJson s = none := Option.isNone_iff_eq_none.mp hbad
  refine ⟨rfl, rfl, ?_, ?_⟩
  · simp [extract_infos, hne, loadPrior, detectChanges, getFiles]
  · simp [extract_infos, hne, loadPrior, hb]

/-- Witness for `prior_snapshot_policy` with a one-entry inventory and an
    unparsable prior file. -/
theorem prior_snapshot_policy_witness :
    extract_infos [("a", ⟨"x", 1, 2⟩)] true none true
      = Except.ok ([("a", ⟨"x", 1, 2⟩)], [], saveContent [("a", ⟨"x", 1, 2⟩)])
    ∧ extract_infos [("a", ⟨"x", 1, 2⟩)] true (some ("not json")) true
      = Except.error ("parse error") :=
  ⟨(prior_snapshot_policy [("a", ⟨"x", 1, 2⟩)] ("not json") (by decide) (by decide)).2.2.1,
   (prior_snapshot_policy [("a", ⟨"x", 1, 2⟩)] ("not json") (by decide) (by decide)).2.2.2⟩

/-- Rewriting the record at one key leaves lookups at other keys unchanged. -/
theorem mapFind_mapSet_ne (m : List (String × file_infos)) (k p : String) (v : file_infos)
    (h : k ≠ p) : mapFind (mapSet m k v) p = mapFind m p := by
  induction m with
  | nil => rfl
  | cons kv m ih =>
    obtain ⟨k', v'⟩ := kv
    by_cases hk : k' = k
    · subst hk
      simp only [mapSet, if_pos rfl, mapFind, if_neg h]
      exact ih
    · simp only [mapSet, if_neg hk, mapFind]
      split
      · rfl
      · exact ih

/-- Rewriting the record at a present key makes lookups there see the new
    record. -/
theorem mapFind_mapSet_eq (m : List (String × file_infos)) (k : String)
    (v fi : file_infos) (h : mapFind m k = some fi) :
    mapFind (mapSet m k v) k = some v := by
  induction m with
  | nil => exact Option.noConfusion h
  | cons kv m ih =>
    obtain ⟨k', v'⟩ := kv
    by_cases hk : k' = k
    · subst hk
      simp [mapSet, mapFind]
    · simp only [mapFind, if_neg hk] at h
      simp only [mapSet, if_neg hk, mapFind, if_neg hk]
      exact ih h

/-- Rewriting a record never changes the key list of the table. -/
theorem mapSet_keys (m : List (String × file_infos)) (k : String) (v : file_infos) :
    (mapSet m k v).map Prod.fst = m.map Prod.fst := by
  induction m with
  | nil => rfl
  | cons kv m ih =>
    obtain ⟨k', v'⟩ := kv
    by_cases hk : k' = k
    · subst hk
      simp [mapSet, ih]
    · simp [mapSet, if_neg hk, ih]

/-- A key is absent from the table exactly when lookup yields nothing. -/
theorem mapFind_eq_none_iff (m : List (String × file_infos)) (p : String) :
    mapFind m p = none ↔ p ∉ m.map Prod.fst := by
  induction m with
  | nil => simp [mapFind]
  | cons kv m ih =>
    obtain ⟨k', v'⟩ := kv
    by_cases hk : k' = p
    · subst hk
      simp [mapFind]
    · have hpk : ¬ p = k' := fun hh => hk hh.symm
      simp only [mapFind, if_neg hk, List.map_cons, List.mem_cons, ih]
      simp [hpk]

/-- An entry that fails the validity check leaves the diff state unchanged. -/
theorem diffOne_invalid (st : List (String × file_infos) × List UpdateRec) (e : Json)
    (h : entryFields e = none) : diffOne st e = st := by
  simp [diffOne, h]

/-- An entry naming a path absent from the fresh inventory leaves the diff
    state unchanged. -/
theorem diffOne_notfound (st : List (String × file_infos) × List UpdateRec) (e : Json)
    (n s : String) (pc pm : Nat)
    (h1 : entryFields e = some (n, s, pc, pm)) (h2 : mapFind st.1 n = none) :
    diffOne st e = st := by
  simp [diffOne, h1, h2]

/-- An entry whose stored fingerprint differs from the fresh one leaves the
    diff state unchanged. -/
theorem diffOne_shane (st : List (String × file_infos) × List UpdateRec) (e : Json)
    (n s : String) (pc pm : Nat) (fi : file_infos)
    (h1 : entryFields e = some (n, s, pc, pm)) (h2 : mapFind st.1 n = some fi)
    (h3 : fi.sha ≠ s) : diffOne st e = st := by
  simp [diffOne, h1, h2, h3]

/-- An entry whose fingerprint matches and whose timestamps both match
    leaves the diff state unchanged. -/
theorem diffOne_same (st : List (String × file_infos) × List UpdateRec) (e : Json)
    (n s : String) (pc pm : Nat) (fi : file_infos)
    (h1 : entryFields e = some (n, s, pc, pm)) (h2 : mapFind st.1 n = some fi)
    (h3 : fi.sha = s) (h4 : fi.ctime = pc) (h5 : fi.mtime = pm) :
    diffOne st e = st := by
  simp [diffOne, h1, h2, h3, h4, h5]

/-- An entry whose fingerprint matches and where at least one timestamp
    differs rewrites the record to the prior timestamps and appends one
    restoration tuple. -/
theorem diffOne_update (st : List (String × file_infos) × List UpdateRec) (e : Json)
    (n s : String) (pc pm : Nat) (fi : file_infos)
    (h1 : entryFields e = some (n, s, pc, pm)) (h2 : mapFind st.1 n = some fi)
    (h3 : fi.sha = s) (h4 : fi.ctime ≠ pc ∨ fi.mtime ≠ pm) :
    diffOne st e =
      (mapSet st.1 n ⟨fi.sha, pc, pm⟩,
       st.2 ++ [⟨n, decide (fi.ctime ≠ pc), pc, fi.ctime,
                 decide (fi.mtime ≠ pm), pm, fi.mtime⟩]) := by
  by_cases hc : fi.ctime = pc <;> by_cases hm : fi.mtime = pm
  · rcases h4 with h | h
    · exact absurd hc h
    · exact absurd hm h
  · simp [diffOne, h1, h2, h3, hc, hm]
  · simp [diffOne, h1, h2, h3, hc, hm]
  · simp [diffOne, h1, h2, h3, hc, hm]

/-- Processing an entry that names a different path (or no path) does not
    change what lookup sees at this path. -/
theorem diffOne_find_ne (st : List (String × file_infos) × List UpdateRec) (e : Json)
    (p : String) (hne : entryName e ≠ some p) :
    mapFind (diffOne st e).1 p = mapFind st.1 p := by
  rcases he : entryFields e with _ | f
  · rw [diffOne_invalid st e he]
  · obtain ⟨n, s, pc, pm⟩ := f
    have hnp : n ≠ p := by
      intro h
      exact hne (by simp [entryName, he, h])
    rcases hf : mapFind st.1 n with _ | fi
    · rw [diffOne_notfound st e n s pc pm he hf]
    · simp only [diffOne, he, hf]
      split
      · split
        · exact mapFind_mapSet_ne _ _ _ _ hnp
        · rfl
      · rfl

/-- One diff step either leaves the restoration list unchanged or appends a
    single record named after the processed entry. -/
theorem diffOne_tu (st : List (String × file_infos) × List UpdateRec) (e : Json) :
    (diffOne st e).2 = st.2
    ∨ ∃ n u, entryName e = some n ∧ UpdateRec.name u = n ∧ (diffOne st e).2 = st.2 ++ [u] := by
  rcases he : entryFields e with _ | f
  · left; rw [diffOne_invalid st e he]
  · obtain ⟨n, s, pc, pm⟩ := f
    rcases hf : mapFind st.1 n with _ | fi
    · left; rw [diffOne_notfound st e n s pc pm he hf]
    · by_cases h3 : fi.sha = s
      · by_cases hc : fi.ctime = pc <;> by_cases hm : fi.mtime = pm
        · left; rw [diffOne_same st e n s pc pm fi he hf h3 hc hm]
        · right
          refine ⟨n, ⟨n, decide (fi.ctime ≠ pc), pc, fi.ctime,
            decide (fi.mtime ≠ pm), pm, fi.mtime⟩, by simp [entryName, he], rfl, ?_⟩
          rw [diffOne_update st e n s pc pm fi he hf h3 (Or.inr hm)]
        · right
          refine ⟨n, ⟨n, decide (fi.ctime ≠ pc), pc, fi.ctime,
            decide (fi.mtime ≠ pm), pm, fi.mtime⟩, by simp [entryName, he], rfl, ?_⟩
          rw [diffOne_update st e n s pc pm fi he hf h3 (Or.inl hc)]
        · right
          refine ⟨n, ⟨n, decide (fi.ctime ≠ pc), pc, fi.ctime,
            decide (fi.mtime ≠ pm), pm, fi.mtime⟩, by simp [entryName, he], rfl, ?_⟩
          rw [diffOne_update st e n s pc pm fi he hf h3 (Or.inl hc)]
      · left; rw [diffOne_shane st e n s pc pm fi he hf h3]

/-- One diff step preserves the key list of the table. -/
theorem diffOne_keys (st : List (String × file_infos) × List UpdateRec) (e : Json) :
    (diffOne st e).1.map Prod.fst = st.1.map Prod.fst := by
  rcases he : entryFields e with _ | f
  · rw [diffOne_invalid st e he]
  · obtain ⟨n, s, pc, pm⟩ := f
    rcases hf : mapFind st.1 n with _ | fi
    · rw [diffOne_notfound st e n s pc pm he hf]
    · simp only [diffOne, he, hf]
      split
      · split
        · exact mapSet_keys _ _ _
        · rfl
      · rfl

/-- Folding the diff over entries that never name this path preserves both
    what lookup sees there and whether a restoration record names it. -/
theorem fold_preserve (es : List Json)
    (st : List (String × file_infos) × List UpdateRec) (p : String)
    (h : p ∉ es.filterMap entryName) :
    mapFind (es.foldl diffOne st).1 p = mapFind st.1 p
    ∧ ((∃ u ∈ (es.foldl diffOne st).2, UpdateRec.name u = p)
        ↔ (∃ u ∈ st.2, UpdateRec.name u = p)) := by
  induction es generalizing st with
  | nil => simp
  | cons e es ih =>
    have hne : entryName e ≠ some p := by
      intro hh
      exact h (by simp [List.filterMap_cons, hh])
    have hes : p ∉ es.filterMap entryName := by
      intro hh
      apply h
      rw [List.filterMap_cons]
      rcases hn : entryName e with _ | q
      · exact hh
      · exact List.mem_cons_of_mem _ hh
    rw [List.foldl_cons]
    refine ⟨?_, ?_⟩
    · rw [(ih (diffOne st e) hes).1]
      exact diffOne_find_ne st e p hne
    · rw [(ih (diffOne st e) hes).2]
      rcases diffOne_tu st e with h2 | ⟨n, u', hn, hun, h2⟩
      · rw [h2]
      · rw [h2]
        constructor
        · rintro ⟨u, hu, hup⟩
          rcases List.mem_append.mp hu with h3 | h3
          · exact ⟨u, h3, hup⟩
          · have : u = u' := List.mem_singleton.mp h3
            subst this
            rw [hup] at hun
            exact absurd (hun ▸ hn) hne
        · rintro ⟨u, hu, hup⟩
          exact ⟨u, List.mem_append_left _ hu, hup⟩

/-- Restoration records already collected survive the rest of the fold. -/
theorem fold_tu_mono (es : List Json)
    (st : List (String × file_infos) × List UpdateRec) (u : UpdateRec)
    (hu : u ∈ st.2) : u ∈ (es.foldl diffOne st).2 := by
  induction es generalizing st with
  | nil => exact hu
  | cons e es ih =>
    rw [List.foldl_cons]
    apply ih
    rcases diffOne_tu st e with h2 | ⟨n, u', _, _, h2⟩
    · rw [h2]; exact hu
    · rw [h2]; exact List.mem_append_left _ hu

/-- A restoration record can only have been appended by an entry naming its
    path. -/
theorem fold_tu_origin (es : List Json)
    (st : List (String × file_infos) × List UpdateRec) (p : String)
    (h : ∃ u ∈ (es.foldl diffOne st).2, UpdateRec.name u = p) :
    (∃ u ∈ st.2, UpdateRec.name u = p) ∨ ∃ e ∈ es, entryName e = some p := by
  induction es generalizing st with
  | nil => exact Or.inl h
  | cons e es ih =>
    rw [List.foldl_cons] at h
    rcases ih (diffOne st e) h with h1 | ⟨e', he', hn'⟩
    · rcases diffOne_tu st e with h2 | ⟨n, u', hn, hun, h2⟩
      · rw [h2] at h1; exact Or.inl h1
      · rw [h2] at h1
        rcases h1 with ⟨u, hu, hup⟩
        rcases List.mem_append.mp hu with h3 | h3
        · exact Or.inl ⟨u, h3, hup⟩
        · have : u = u' := List.mem_singleton.mp h3
          subst this
          right
          exact ⟨e, List.mem_cons_self e es, by rw [hn, ← hun, hup]⟩
    · exact Or.inr ⟨e', List.mem_cons_of_mem e he', hn'⟩

/-- If lookup at a path yields nothing, the whole fold keeps it that way and
    never produces a restoration record for it. -/
theorem fold_none_invariant (es : List Json)
    (st : List (String × file_infos) × List UpdateRec) (p : String)
    (hf : mapFind st.1 p = none) :
    mapFind ((es.foldl diffOne st).1) p = none
    ∧ ((∃ u ∈ (es.foldl diffOne st).2, UpdateRec.name u = p)
        ↔ (∃ u ∈ st.2, UpdateRec.name u = p)) := by
  induction es generalizing st with
  | nil => simp [hf]
  | cons e es ih
  => rw [List.foldl_cons]
     by_cases hne : entryName e = some p
     · rcases he : entryFields e with _ | f
       · rw [diffOne_invalid st e he]
         exact ih st hf
       · obtain ⟨n, s, pc, pm⟩ := f
         have : n = p := by
           simpa [entryName, he] using hne
         subst this
         rw [diffOne_notfound st e n s pc pm he hf]
         exact ih st hf
     · have h1 := diffOne_find_ne st e p hne
       have h2 : (∃ u ∈ (diffOne st e).2, UpdateRec.name u = p)
           ↔ (∃ u ∈ st.2, UpdateRec.name u = p) := by
         rcases diffOne_tu st e with h2 | ⟨n, u', hn, hun, h2⟩
         · rw [h2]
         · rw [h2]
           constructor
           · rintro ⟨u, hu, hup⟩
             rcases List.mem_append.mp hu with h3 | h3
             · exact ⟨u, h3, hup⟩
             · have : u = u' := List.mem_singleton.mp h3
               subst this
               rw [hup] at hun
               exact absurd (hun ▸ hn) hne
           · rintro ⟨u, hu, hup⟩
             exact ⟨u, List.mem_append_left _ hu, hup⟩
       have h3 := ih (diffOne st e) (by rw [h1]; exact hf)
       exact ⟨h3.1, h3.2.trans h2⟩

/-- The whole fold preserves the key list of the table: no path is ever
    inserted or removed by the diff pass. -/
theorem fold_keys (es : List Json)
    (st : List (String × file_infos) × List UpdateRec) :
    (es.foldl diffOne st).1.map Prod.fst = st.1.map Prod.fst := by
  induction es generalizing st with
  | nil => rfl
  | cons e es ih =>
    rw [List.foldl_cons, ih, diffOne_keys]

/-- Splitting a duplicate-free prior entry list around the unique entry
    naming a given path. -/
theorem nodup_split_names (es : List Json) (e : Json) (p : String)
    (hmem : e ∈ es) (hname : entryName e = some p)
    (hnodup : (es.filterMap entryName).Nodup) :
    ∃ l1 l2, es = l1 ++ e :: l2
      ∧ p ∉ l1.filterMap entryName ∧ p ∉ l2.filterMap entryName := by
  obtain ⟨l1, l2, rfl⟩ := List.append_of_mem hmem
  refine ⟨l1, l2, rfl, ?_, ?_⟩
  · rw [List.filterMap_append, List.filterMap_cons_some hname] at hnodup
    have hd := (List.nodup_append.mp hnodup).2.2
    intro hp
    exact hd hp (List.mem_cons_self p _)
  · rw [List.filterMap_append, List.filterMap_cons_some hname] at hnodup
    have := (List.nodup_append.mp hnodup).2.1
    exact (List.nodup_cons.mp this).1

/-- If the diff step at the unique entry naming a path does nothing, the
    whole fold produces no restoration record for that path. -/
theorem fold_no_add (l1 l2 : List Json) (e : Json)
    (m0 : List (String × file_infos)) (p : String)
    (h1 : p ∉ l1.filterMap entryName) (h2 : p ∉ l2.filterMap entryName)
    (hskip : diffOne (l1.foldl diffOne (m0, ([] : List UpdateRec))) e
      = l1.foldl diffOne (m0, [])) :
    ¬ ∃ u ∈ ((l1 ++ e :: l2).foldl diffOne (m0, ([] : List UpdateRec))).2,
      UpdateRec.name u = p := by
  rw [List.foldl_append, List.foldl_cons, hskip]
  intro h
  have hb := (fold_preserve l1 (m0, []) p h1).2.mp ((fold_preserve l2 _ p h2).2.mp h)
  simp at hb

/-- C1: for a path present in both snapshots (a valid, uniquely named prior
    entry and a fresh record): if the fingerprints are equal, after the
    diff-and-restore pass the record's ctime and mtime equal the prior
    values; if the fingerprints differ, the record keeps exactly the freshly
    probed values. -/
theorem restoration_correctness
    (m0 : List (String × file_infos)) (db : Json) (es : List Json) (e : Json)
    (n s : String) (pc pm : Nat) (fi : file_infos)
    (hdb : getFiles db = some es) (hmem : e ∈ es)
    (hf : entryFields e = some (n, s, pc, pm))
    (hnodup : (es.filterMap entryName).Nodup)
    (hcur : mapFind m0 n = some fi) :
    (fi.sha = s → mapFind (detectChanges m0 db).1 n = some ⟨fi.sha, pc, pm⟩)
    ∧ (fi.sha ≠ s → mapFind (detectChanges m0 db).1 n = some fi) := by
  have hname : entryName e = some n := by simp [entryName, hf]
  obtain ⟨l1, l2, rfl, h1, h2⟩ := nodup_split_names es e n hmem hname hnodup
  have hdc : detectChanges m0 db = (l1 ++ e :: l2).foldl diffOne (m0, []) := by
    simp [detectChanges, hdb]
  rw [hdc, List.foldl_append, List.foldl_cons]
  have hfind1 : mapFind (l1.foldl diffOne (m0, ([] : List UpdateRec))).1 n = some fi := by
    rw [(fold_preserve l1 (m0, []) n h1).1]
    exact hcur
  constructor
  · intro hsha
    by_cases hc : fi.ctime = pc ∧ fi.mtime = pm
    · rw [diffOne_same _ e n s pc pm fi hf hfind1 hsha hc.1 hc.2,
          (fold_preserve l2 _ n h2).1, hfind1, ← hc.1, ← hc.2]
    · have hor : fi.ctime ≠ pc ∨ fi.mtime ≠ pm := by tauto
      rw [diffOne_update _ e n s pc pm fi hf hfind1 hsha hor]
      rw [(fold_preserve l2 _ n h2).1]
      exact mapFind_mapSet_eq _ _ _ _ hfind1
  · intro hsha
    rw [diffOne_shane _ e n s pc pm fi hf hfind1 hsha,
        (fold_preserve l2 _ n h2).1, hfind1]

/-- Witness for `restoration_correctness` on a two-file inventory diffed
    against `dbAB`: the matching-fingerprint file "a" gets the prior
    timestamps, the changed-fingerprint file "b" keeps the probed ones. -/
theorem restoration_correctness_witness :
    mapFind (detectChanges [("a", ⟨"x", 5, 7⟩), ("b", ⟨"y", 1, 1⟩)] dbAB).1 ("a")
      = some ⟨"x", 2, 7⟩
    ∧ mapFind (detectChanges [("a", ⟨"x", 5, 7⟩), ("b", ⟨"y", 1, 1⟩)] dbAB).1 ("b")
      = some ⟨"y", 1, 1⟩ :=
  ⟨(restoration_correctness [("a", ⟨"x", 5, 7⟩), ("b", ⟨"y", 1, 1⟩)] dbAB
      [entA, entB] entA ("a") ("x") 2 7 ⟨"x", 5, 7⟩ rfl (List.mem_cons_self _ _) rfl
      (by decide) rfl).1 rfl,
   (restoration_correctness [("a", ⟨"x", 5, 7⟩), ("b", ⟨"y", 1, 1⟩)] dbAB
      [entA, entB] entB ("b") ("z") 3 4 ⟨"y", 1, 1⟩ rfl
      (List.mem_cons_of_mem _ (List.mem_cons_self _ _)) rfl
      (by decide) rfl).2 (by decide)⟩

/-- C2: a restoration record for a path is produced if and only if the path
    is named by a valid entry of the (duplicate-free) prior snapshot, is
    present in the fresh inventory, the fingerprints match, and at least one
    of the two timestamps differs; in particular a path with a changed
    fingerprint never appears in the restoration list. -/
theorem to_update_characterization
    (m0 : List (String × file_infos)) (db : Json) (es : List Json) (n : String)
    (hdb : getFiles db = some es)
    (hnodup : (es.filterMap entryName).Nodup) :
    (∃ u ∈ (detectChanges m0 db).2, UpdateRec.name u = n)
    ↔ ∃ e ∈ es, ∃ s pc pm, entryFields e = some (n, s, pc, pm)
        ∧ ∃ fi, mapFind m0 n = some fi ∧ fi.sha = s
        ∧ (fi.ctime ≠ pc ∨ fi.mtime ≠ pm) := by
  have hdc : detectChanges m0 db = es.foldl diffOne (m0, []) := by
    simp [detectChanges, hdb]
  rw [hdc]
  constructor
  · intro h
    rcases fold_tu_origin es (m0, []) n h with hbase | ⟨e, hmem, hname⟩
    · simp at hbase
    · obtain ⟨f, hf, hf1⟩ := Option.map_eq_some'.mp hname
      obtain ⟨n', s, pc, pm⟩ := f
      simp only at hf1
      subst n'
      obtain ⟨l1, l2, rfl, h1, h2⟩ := nodup_split_names es e n hmem hname hnodup
      rcases hfi : mapFind m0 n with _ | fi
      · exfalso
        have := (fold_none_invariant (l1 ++ e :: l2) (m0, []) n hfi).2.mp h
        simp at this
      · have hfind1 : mapFind (l1.foldl diffOne (m0, ([] : List UpdateRec))).1 n
            = some fi := by
          rw [(fold_preserve l1 (m0, []) n h1).1]
          exact hfi
        by_cases hsha : fi.sha = s
        · by_cases hch : fi.ctime = pc ∧ fi.mtime = pm
          · exfalso
            exact fold_no_add l1 l2 e m0 n h1 h2
              (diffOne_same _ e n s pc pm fi hf hfind1 hsha hch.1 hch.2) h
          · have hor : fi.ctime ≠ pc ∨ fi.mtime ≠ pm := by tauto
            exact ⟨e, List.mem_append_right _ (List.mem_cons_self _ _),
              s, pc, pm, hf, fi, rfl, hsha, hor⟩
        · exfalso
          exact fold_no_add l1 l2 e m0 n h1 h2
            (diffOne_shane _ e n s pc pm fi hf hfind1 hsha) h
  · rintro ⟨e, hmem, s, pc, pm, hf, fi, hfi, hsha, hor⟩
    have hname : entryName e = some n := by simp [entryName, hf]
    obtain ⟨l1, l2, rfl, h1, h2⟩ := nodup_split_names es e n hmem hname hnodup
    rw [List.foldl_append, List.foldl_cons]
    have hfind1 : mapFind (l1.foldl diffOne (m0, ([] : List UpdateRec))).1 n
        = some fi := by
      rw [(fold_preserve l1 (m0, []) n h1).1]
      exact hfi
    rw [diffOne_update _ e n s pc pm fi hf hfind1 hsha hor]
    refine ⟨⟨n, decide (fi.ctime ≠ pc), pc, fi.ctime,
      decide (fi.mtime ≠ pm), pm, fi.mtime⟩, ?_, rfl⟩
    apply fold_tu_mono
    exact List.mem_append_right _ (List.mem_cons_self _ _)

/-- Witness for `to_update_characterization`: against `dbAB`, path "a"
    (fingerprint match, changed ctime) gets a restoration record. -/
theorem to_update_characterization_witness :
    ∃ u ∈ (detectChanges [("a", ⟨"x", 5, 7⟩), ("b", ⟨"y", 1, 1⟩)] dbAB).2,
      UpdateRec.name u = "a" :=
  (to_update_characterization [("a", ⟨"x", 5, 7⟩), ("b", ⟨"y", 1, 1⟩)] dbAB
      [entA, entB] ("a") rfl (by decide)).mpr
    ⟨entA, List.mem_cons_self _ _, "x", 2, 7, rfl,
     ⟨"x", 5, 7⟩, rfl, rfl, Or.inl (by decide)⟩

/-- C5: a path in the fresh inventory that no prior entry names never
    produces a restoration record or a timestamp-writer call; a path named
    by a prior entry but absent from the fresh inventory produces neither a
    restoration record nor an entry in the persisted output snapshot. -/
theorem new_removed_handling
    (m0 : List (String × file_infos)) (db : Json) (es : List Json) (n : String)
    (hdb : getFiles db = some es) :
    ((mapFind m0 n).isSome → n ∉ es.filterMap entryName →
      (∀ u ∈ (detectChanges m0 db).2, UpdateRec.name u ≠ n)
      ∧ (∀ c ∈ restoreCalls (detectChanges m0 db).2, c.1 ≠ n))
    ∧ ((∃ e ∈ es, entryName e = some n) → mapFind m0 n = none →
      (∀ u ∈ (detectChanges m0 db).2, UpdateRec.name u ≠ n)
      ∧ n ∉ (detectChanges m0 db).1.map Prod.fst) := by
  have hdc : detectChanges m0 db = es.foldl diffOne (m0, []) := by
    simp [detectChanges, hdb]
  rw [hdc]
  constructor
  · intro _ habs
    have hiff := (fold_preserve es (m0, []) n habs).2
    have htu : ∀ u ∈ (es.foldl diffOne (m0, ([] : List UpdateRec))).2,
        UpdateRec.name u ≠ n := by
      intro u hu hun
      have := hiff.mp ⟨u, hu, hun⟩
      simp at this
    refine ⟨htu, ?_⟩
    intro c hc
    simp only [restoreCalls, List.mem_map] at hc
    obtain ⟨u, hu, rfl⟩ := hc
    exact htu u hu
  · intro _ hnone
    have hinv := fold_none_invariant es (m0, []) n hnone
    constructor
    · intro u hu hun
      have := hinv.2.mp ⟨u, hu, hun⟩
      simp at this
    · rw [fold_keys]
      exact (mapFind_eq_none_iff m0 n).mp hnone

/-- Witness for `new_removed_handling`: with `dbAB` as prior, the
    current-only path "c" is never restored or written to, and the
    prior-only path "b" is neither restored nor kept in the output. -/
theorem new_removed_handling_witness :
    (∀ u ∈ (detectChanges [("a", ⟨"x", 5, 7⟩), ("c", ⟨"w", 9, 9⟩)] dbAB).2,
      UpdateRec.name u ≠ "c")
    ∧ "b" ∉ (detectChanges [("a", ⟨"x", 5, 7⟩), ("c", ⟨"w", 9, 9⟩)] dbAB).1.map Prod.fst :=
  ⟨((new_removed_handling [("a", ⟨"x", 5, 7⟩), ("c", ⟨"w", 9, 9⟩)] dbAB
      [entA, entB] ("c") rfl).1 (by decide) (by decide)).1,
   ((new_removed_handling [("a", ⟨"x", 5, 7⟩), ("c", ⟨"w", 9, 9⟩)] dbAB
      [entA, entB] ("b") rfl).2
      ⟨entB, List.mem_cons_of_mem _ (List.mem_cons_self _ _), rfl⟩ (by decide)).2⟩

/-- C10: for a file whose fingerprint matches the prior entry and where a
    timestamp field's prior value is exactly 0 while the freshly probed
    value differs, the diff pass marks that field changed, rewrites the
    in-memory record's field to 0, and emits a restoration record — yet the
    timestamp writer is invoked with 0 for that field, the sentinel meaning
    "do not modify", so the file's on-disk value of that field is left
    unchanged rather than restored. Both fields behave symmetrically, with
    no constraint on what the other field did. -/
theorem zero_timestamp_sentinel
    (m0 : List (String × file_infos)) (db : Json) (es : List Json) (e : Json)
    (n s : String) (pc pm : Nat) (fi : file_infos)
    (hdb : getFiles db = some es) (hmem : e ∈ es)
    (hf : entryFields e = some (n, s, pc, pm))
    (hnodup : (es.filterMap entryName).Nodup)
    (hcur : mapFind m0 n = some fi)
    (hsha : fi.sha = s) :
    (pc = 0 → fi.ctime ≠ 0 →
      mapFind (detectChanges m0 db).1 n = some ⟨fi.sha, 0, pm⟩
      ∧ (∃ u ∈ (detectChanges m0 db).2,
          u.name = n ∧ u.ctime_changed = true ∧ u.old_ctime = 0)
      ∧ (∃ c ∈ restoreCalls (detectChanges m0 db).2, c.1 = n ∧ c.2.1 = 0)
      ∧ (∀ disk : Nat × Nat, ∀ marg : Nat, (applyStat disk 0 marg).1 = disk.1))
    ∧ (pm = 0 → fi.mtime ≠ 0 →
      mapFind (detectChanges m0 db).1 n = some ⟨fi.sha, pc, 0⟩
      ∧ (∃ u ∈ (detectChanges m0 db).2,
          u.name = n ∧ u.mtime_changed = true ∧ u.old_mtime = 0)
      ∧ (∃ c ∈ restoreCalls (detectChanges m0 db).2, c.1 = n ∧ c.2.2.2 = 0)
      ∧ (∀ disk : Nat × Nat, ∀ carg : Nat, (applyStat disk carg 0).2 = disk.2)) := by
  have hname : entryName e = some n := by simp [entryName, hf]
  obtain ⟨l1, l2, rfl, h1, h2⟩ := nodup_split_names es e n hmem hname hnodup
  have hdc : detectChanges m0 db = (l1 ++ e :: l2).foldl diffOne (m0, []) := by
    simp [detectChanges, hdb]
  have hfind1 : mapFind (l1.foldl diffOne (m0, ([] : List UpdateRec))).1 n = some fi := by
    rw [(fold_preserve l1 (m0, []) n h1).1]
    exact hcur
  have hstep : (fi.ctime ≠ pc ∨ fi.mtime ≠ pm) →
      detectChanges m0 db
        = l2.foldl diffOne
            (mapSet (l1.foldl diffOne (m0, ([] : List UpdateRec))).1 n ⟨fi.sha, pc, pm⟩,
             (l1.foldl diffOne (m0, ([] : List UpdateRec))).2
               ++ [⟨n, decide (fi.ctime ≠ pc), pc, fi.ctime,
                   decide (fi.mtime ≠ pm), pm, fi.mtime⟩]) := by
    intro hor
    rw [hdc, List.foldl_append, List.foldl_cons,
        diffOne_update _ e n s pc pm fi hf hfind1 hsha hor]
  have hmemgen : (fi.ctime ≠ pc ∨ fi.mtime ≠ pm) →
      (⟨n, decide (fi.ctime ≠ pc), pc, fi.ctime,
        decide (fi.mtime ≠ pm), pm, fi.mtime⟩ : UpdateRec)
        ∈ (detectChanges m0 db).2 := by
    intro hor
    rw [hstep hor]
    apply fold_tu_mono
    exact List.mem_append_right _ (List.mem_cons_self _ _)
  have hmapgen : (fi.ctime ≠ pc ∨ fi.mtime ≠ pm) →
      mapFind (detectChanges m0 db).1 n = some ⟨fi.sha, pc, pm⟩ := by
    intro hor
    rw [hstep hor, (fold_preserve l2 _ n h2).1]
    exact mapFind_mapSet_eq _ _ _ _ hfind1
  have hcallgen : (fi.ctime ≠ pc ∨ fi.mtime ≠ pm) →
      (n, (if decide (fi.ctime ≠ pc) = true then pc else 0), 0,
       (if decide (fi.mtime ≠ pm) = true then pm else 0))
        ∈ restoreCalls (detectChanges m0 db).2 := by
    intro hor
    have h3 := List.mem_map_of_mem (fun u : UpdateRec =>
      (u.name, (if u.ctime_changed then u.old_ctime else 0), 0,
       (if u.mtime_changed then u.old_mtime else 0))) (hmemgen hor)
    simpa [restoreCalls] using h3
  constructor
  · intro hpc hct
    subst hpc
    have hor : fi.ctime ≠ 0 ∨ fi.mtime ≠ pm := Or.inl hct
    refine ⟨hmapgen hor, ⟨_, hmemgen hor, rfl, decide_eq_true hct, rfl⟩, ?_, ?_⟩
    · exact ⟨_, hcallgen hor, rfl, by simp⟩
    · intro disk marg
      simp [applyStat]
  · intro hpm hmt
    subst hpm
    have hor : fi.ctime ≠ pc ∨ fi.mtime ≠ 0 := Or.inr hmt
    refine ⟨hmapgen hor, ⟨_, hmemgen hor, rfl, decide_eq_true hmt, rfl⟩, ?_, ?_⟩
    · exact ⟨_, hcallgen hor, rfl, by simp⟩
    · intro disk carg
      simp [applyStat]

/-- Witness for `zero_timestamp_sentinel` against `dbZeroBoth`: both prior
    timestamps are 0 and both probed values differ, so both fields are
    marked changed and rewritten to 0, and the set_stat call carries the 0
    sentinel in both timestamp slots. -/
theorem zero_timestamp_sentinel_witness :
    mapFind (detectChanges [("a", ⟨"x", 5, 7⟩)] dbZeroBoth).1 ("a") = some ⟨"x", 0, 0⟩
    ∧ (∃ u ∈ (detectChanges [("a", ⟨"x", 5, 7⟩)] dbZeroBoth).2,
        u.name = "a" ∧ u.ctime_changed = true ∧ u.old_ctime = 0)
    ∧ (∃ u ∈ (detectChanges [("a", ⟨"x", 5, 7⟩)] dbZeroBoth).2,
        u.name = "a" ∧ u.mtime_changed = true ∧ u.old_mtime = 0)
    ∧ (∃ c ∈ restoreCalls (detectChanges [("a", ⟨"x", 5, 7⟩)] dbZeroBoth).2,
        c.1 = "a" ∧ c.2.1 = 0)
    ∧ (∃ c ∈ restoreCalls (detectChanges [("a", ⟨"x", 5, 7⟩)] dbZeroBoth).2,
        c.1 = "a" ∧ c.2.2.2 = 0) := by
  have h := zero_timestamp_sentinel [("a", ⟨"x", 5, 7⟩)] dbZeroBoth [entZeroBoth]
    entZeroBoth ("a") ("x") 0 0 ⟨"x", 5, 7⟩ rfl (List.mem_cons_self _ _) rfl
    (by decide) rfl rfl
  have ha := h.1 rfl (by decide)
  have hb := h.2 rfl (by decide)
  exact ⟨ha.1, ha.2.1, hb.2.1, ha.2.2.1, hb.2.2.1⟩


theorem pe_step (fuel : Nat) (acc : List Json) (cs : List Char) :
    parseCore (fuel + 1) (ParseMode.elems acc) cs
      = (match parseCore fuel ParseMode.val cs with
         | none => none
         | some (v, r1) =>
           match skipWs r1 with
           | ',' :: r2 => parseCore fuel (ParseMode.elems (acc ++ [v])) r2
           | ']' :: r2 => some (Json.arr (acc ++ [v]), r2)
           | _ => none) := rfl

theorem pv_entry_start (fuel : Nat) (X : List Char) (s r1 : List Char)
    (hX : parseStringBody X = some (s, r1)) :
    parseCore (fuel + 6) ParseMode.val (p1Chars ++ X)
      = (match skipWs r1 with
         | ',' :: r4 => parseCore (fuel + 4)
             (ParseMode.members [("name", Json.str (String.mk s))]) r4
         | '\x7d' :: r4 => some (Json.obj [("name", Json.str (String.mk s))], r4)
         | _ => none) := by
  have h0 : parseCore (fuel + 6) ParseMode.val (p1Chars ++ X)
      = (match (match parseStringBody X with
                | none => none
                | some (s, r) => some (Json.str (String.mk s), r)) with
         | none => none
         | some (v, r3) =>
           match skipWs r3 with
           | ',' :: r4 => parseCore (fuel + 4) (ParseMode.members [("name", v)]) r4
           | '\x7d' :: r4 => some (Json.obj [("name", v)], r4)
           | _ => none) := rfl
  rw [h0, hX]

theorem pv_member_sha (fuel : Nat) (acc : List (String × Json)) (Y : List Char)
    (s r1 : List Char) (hY : parseStringBody Y = some (s, r1)) :
    parseCore (fuel + 4) (ParseMode.members acc)
      ([' ', '"', 's', 'h', 'a', '"', ':', ' ', '"'] ++ Y)
      = (match skipWs r1 with
         | ',' :: r4 => parseCore (fuel + 3)
             (ParseMode.members (acc ++ [("sha", Json.str (String.mk s))])) r4
         | '\x7d' :: r4 => some (Json.obj (acc ++ [("sha", Json.str (String.mk s))]), r4)
         | _ => none) := by
  have h0 : parseCore (fuel + 4) (ParseMode.members acc)
      ([' ', '"', 's', 'h', 'a', '"', ':', ' ', '"'] ++ Y)
      = (match (match parseStringBody Y with
                | none => none
                | some (s, r) => some (Json.str (String.mk s), r)) with
         | none => none
         | some (v, r3) =>
           match skipWs r3 with
           | ',' :: r4 => parseCore (fuel + 3) (ParseMode.members (acc ++ [("sha", v)])) r4
           | '\x7d' :: r4 => some (Json.obj (acc ++ [("sha", v)]), r4)
           | _ => none) := rfl
  rw [h0, hY]

theorem pv_member_ctime (fuel : Nat) (acc : List (String × Json)) (Z : List Char) :
    parseCore (fuel + 3) (ParseMode.members acc)
      ([' ', '"', 'c', 't', 'i', 'm', 'e', '"', ':', ' '] ++ Z)
      = (match parseCore (fuel + 2) ParseMode.val ([' '] ++ Z) with
         | none => none
         | some (v, r3) =>
           match skipWs r3 with
           | ',' :: r4 => parseCore (fuel + 2) (ParseMode.members (acc ++ [("ctime", v)])) r4
           | '\x7d' :: r4 => some (Json.obj (acc ++ [("ctime", v)]), r4)
           | _ => none) := rfl

theorem pv_member_mtime (fuel : Nat) (acc : List (String × Json)) (Z : List Char) :
    parseCore (fuel + 2) (ParseMode.members acc)
      ([' ', '"', 'm', 't', 'i', 'm', 'e', '"', ':', ' '] ++ Z)
      = (match parseCore (fuel + 1) ParseMode.val ([' '] ++ Z) with
         | none => none
         | some (v, r3) =>
           match skipWs r3 with
           | ',' :: r4 => parseCore (fuel + 1) (ParseMode.members (acc ++ [("mtime", v)])) r4
           | '\x7d' :: r4 => some (Json.obj (acc ++ [("mtime", v)]), r4)
           | _ => none) := rfl

theorem pv_top (fuel : Nat) (X : List Char) :
    parseCore (fuel + 3) ParseMode.val (hdrChars ++ X)
      = (match parseCore (fuel + 1) ParseMode.val ([' ', '[', '\n'] ++ X) with
         | none => none
         | some (v, r3) =>
           match skipWs r3 with
           | ',' :: r4 => parseCore (fuel + 1) (ParseMode.members [("files", v)]) r4
           | '\x7d' :: r4 => some (Json.obj [("files", v)], r4)
           | _ => none) := rfl

theorem pv_array_pre (fuel : Nat) (X : List Char) :
    parseCore (fuel + 1) ParseMode.val ([' ', '[', '\n'] ++ X)
      = (match skipWs X with
         | ']' :: r2 => some (Json.arr [], r2)
         | _ => parseCore fuel (ParseMode.elems []) ('\n' :: X)) := rfl

theorem skipWs_p1 (Y : List Char) :
    skipWs (p1Chars ++ Y)
      = '\x7b' :: ([' ', '"', 'n', 'a', 'm', 'e', '"', ':', ' ', '"'] ++ Y) := rfl

theorem skipWs_ftr : skipWs ('\n' :: ftrChars) = ']' :: ['\n', '\x7d'] := rfl

theorem skipWs_tail2 : skipWs (['\n', '\x7d'] : List Char) = ['\x7d'] := rfl

theorem psb_bs (cs : List Char) :
    parseStringBody ('\\' :: '\\' :: cs)
      = (match parseStringBody cs with
         | none => none
         | some (s, r) => some ('\\' :: s, r)) := rfl

theorem string_eta (s : String) : String.mk s.data = s := rfl

theorem skipWs_ws (c : Char) (cs : List Char) (h : isWsChar c = true) :
    skipWs (c :: cs) = skipWs cs := by
  simp [skipWs, h]

theorem skipWs_not_ws (c : Char) (cs : List Char) (h : isWsChar c = false) :
    skipWs (c :: cs) = c :: cs := by
  simp [skipWs, h]

theorem skipWs_replicate (n : Nat) (cs : List Char) :
    skipWs (List.replicate n ' ' ++ cs) = skipWs cs := by
  induction n with
  | zero => rfl
  | succ n ih =>
    rw [List.replicate_succ, List.cons_append, skipWs_ws _ _ (by decide)]
    exact ih

theorem parseVal_ws (fuel : Nat) (c : Char) (cs : List Char) (h : isWsChar c = true) :
    parseCore fuel ParseMode.val (c :: cs) = parseCore fuel ParseMode.val cs := by
  cases fuel with
  | zero => rfl
  | succ fuel =>
    show (match skipWs (c :: cs) with
          | [] => none
          | c :: rest =>
            if c = '"' then
              match parseStringBody rest with
              | none => none
              | some (s, r) => some (Json.str (String.mk s), r)
            else if c = '\x7b' then
              match skipWs rest with
              | '\x7d' :: r2 => some (Json.obj [], r2)
              | _ => parseCore fuel (ParseMode.members []) rest
            else if c = '[' then
              match skipWs rest with
              | ']' :: r2 => some (Json.arr [], r2)
              | _ => parseCore fuel (ParseMode.elems []) rest
            else if c.isDigit then
              match parseNatFrom (c :: rest) with
              | none => none
              | some (n, r) => some (Json.num n, r)
            else
              match c :: rest with
              | 'n' :: 'u' :: 'l' :: 'l' :: r => some (Json.null, r)
              | 't' :: 'r' :: 'u' :: 'e' :: r => some (Json.bool true, r)
              | 'f' :: 'a' :: 'l' :: 's' :: 'e' :: r => some (Json.bool false, r)
              | _ => none) = _
    rw [skipWs_ws c cs h]
    rfl

theorem digitChar_isDigit (n : Nat) : (digitChar n).isDigit = true := by
  rcases n with _ | _ | _ | _ | _ | _ | _ | _ | _ | n <;> rfl

theorem digitVal_digitChar (n : Nat) (h : n < 10) : digitVal (digitChar n) = n := by
  rcases n with _ | _ | _ | _ | _ | _ | _ | _ | _ | n
  · rfl
  · rfl
  · rfl
  · rfl
  · rfl
  · rfl
  · rfl
  · rfl
  · rfl
  · rcases n with _ | n
    · rfl
    · omega

theorem isDigit_not_special (c : Char) (h : c.isDigit = true) :
    (c = '"' → False) ∧ (c = '\x7b' → False) ∧ (c = '[' → False) ∧ isWsChar c = false := by
  refine ⟨?_, ?_, ?_, ?_⟩
  · intro hh; rw [hh] at h; exact absurd h (by decide)
  · intro hh; rw [hh] at h; exact absurd h (by decide)
  · intro hh; rw [hh] at h; exact absurd h (by decide)
  · by_cases h1 : c = ' '
    · rw [h1] at h; exact absurd h (by decide)
    · by_cases h2 : c = '\n'
      · rw [h2] at h; exact absurd h (by decide)
      · by_cases h3 : c = '\t'
        · rw [h3] at h; exact absurd h (by decide)
        · by_cases h4 : c = '\r'
          · rw [h4] at h; exact absurd h (by decide)
          · simp [isWsChar, h1, h2, h3, h4]

theorem renderNatAux_spec : ∀ (fuel n : Nat) (acc : List Char), n < fuel →
    ∃ ds, renderNatAux fuel n acc = ds ++ acc ∧ ds ≠ []
      ∧ (∀ c ∈ ds, c.isDigit = true)
      ∧ ds.foldl (fun a c => a * 10 + digitVal c) 0 = n := by
  intro fuel
  induction fuel with
  | zero => intro n acc h; omega
  | succ fuel ih =>
    intro n acc h
    by_cases h10 : n < 10
    · refine ⟨[digitChar n], by simp [renderNatAux, h10], by simp, ?_, ?_⟩
      · intro c hc
        rw [List.mem_singleton.mp hc]
        exact digitChar_isDigit n
      · simp [digitVal_digitChar n h10]
    · have hlt : n / 10 < fuel := by omega
      obtain ⟨ds, hds, hne, hdig, hfold⟩ := ih (n / 10) (digitChar (n % 10) :: acc) hlt
      refine ⟨ds ++ [digitChar (n % 10)], ?_, by simp, ?_, ?_⟩
      · rw [renderNatAux, if_neg h10, hds, List.append_assoc]
        rfl
      · intro c hc
        rcases List.mem_append.mp hc with hcc | hcc
        · exact hdig c hcc
        · rw [List.mem_singleton.mp hcc]
          exact digitChar_isDigit _
      · rw [List.foldl_append, hfold]
        simp only [List.foldl]
        rw [digitVal_digitChar (n % 10) (Nat.mod_lt n (by norm_num))]
        omega

theorem parseNatAux_digits (ds : List Char) : ∀ (acc : Nat) (rest : List Char),
    (∀ c ∈ ds, c.isDigit = true) →
    (∀ c, rest.head? = some c → c.isDigit = false) →
    parseNatAux acc (ds ++ rest)
      = (ds.foldl (fun a c => a * 10 + digitVal c) acc, rest) := by
  induction ds with
  | nil =>
    intro acc rest _ hrest
    cases rest with
    | nil => rfl
    | cons c cs =>
      have := hrest c rfl
      simp [parseNatAux, this]
  | cons d ds ih =>
    intro acc rest hdig hrest
    have hd := hdig d (List.mem_cons_self _ _)
    rw [List.cons_append, parseNatAux, if_pos hd]
    rw [ih _ rest (fun c hc => hdig c (List.mem_cons_of_mem _ hc)) hrest]
    rfl

theorem parseNatFrom_render (n : Nat) (rest : List Char)
    (hrest : ∀ c, rest.head? = some c → c.isDigit = false) :
    parseNatFrom (renderNatChars n ++ rest) = some (n, rest) := by
  obtain ⟨ds, hds, hne, hdig, hfold⟩ := renderNatAux_spec (n + 1) n [] (Nat.lt_succ_self n)
  have hrn : renderNatChars n = ds := by
    rw [renderNatChars, hds, List.append_nil]
  rw [hrn]
  cases ds with
  | nil => exact absurd rfl hne
  | cons d ds' =>
    have hd := hdig d (List.mem_cons_self _ _)
    rw [List.cons_append, parseNatFrom, if_pos hd]
    rw [show d :: (ds' ++ rest) = (d :: ds') ++ rest from rfl]
    rw [parseNatAux_digits (d :: ds') 0 rest hdig hrest, hfold]

theorem parseStringBody_cons (c : Char) (rest : List Char) :
    parseStringBody (c :: rest)
      = (if c = '"' then some ([], rest)
         else if c = '\\' then
           match rest with
           | [] => none
           | e :: cs' =>
             match unescapeChar e with
             | none => none
             | some u =>
               match parseStringBody cs' with
               | none => none
               | some (s, r) => some (u :: s, r)
         else if c.toNat < 32 then none
         else
           match parseStringBody rest with
           | none => none
           | some (s, r) => some (c :: s, r)) := by
  rw [parseStringBody.eq_def]

theorem escChars_cons (c : Char) (s : List Char) :
    escChars (c :: s)
      = if c = '\\' then '\\' :: '\\' :: escChars s else c :: escChars s := by
  rw [escChars.eq_def]

theorem parseStringBody_esc (s : List Char) : ∀ (rest : List Char),
    (∀ c ∈ s, c ≠ '"' ∧ 32 ≤ c.toNat) →
    parseStringBody (escChars s ++ '"' :: rest) = some (s, rest) := by
  induction s with
  | nil =>
    intro rest _
    rw [show escChars [] = [] from rfl, List.nil_append, parseStringBody_cons, if_pos rfl]
  | cons c s ih =>
    intro rest hsafe
    obtain ⟨hq, hctl⟩ := hsafe c (List.mem_cons_self _ _)
    have hrest := fun c hc => hsafe c (List.mem_cons_of_mem _ hc)
    by_cases hbs : c = '\\'
    · subst hbs
      rw [escChars_cons, if_pos rfl, List.cons_append, List.cons_append, psb_bs,
          ih rest hrest]
    · rw [escChars_cons, if_neg hbs, List.cons_append, parseStringBody_cons]
      rw [if_neg hq, if_neg hbs, if_neg (show ¬ c.toNat < 32 by omega)]
      rw [ih rest hrest]

theorem escChars_id (s : List Char) (h : ∀ c ∈ s, c ≠ '\\') : escChars s = s := by
  induction s with
  | nil => rfl
  | cons c s ih =>
    rw [escChars_cons, if_neg (h c (List.mem_cons_self _ _)),
        ih (fun c hc => h c (List.mem_cons_of_mem _ hc))]

theorem parseStringBody_raw (s : List Char) (rest : List Char)
    (h : ∀ c ∈ s, c ≠ '"' ∧ c ≠ '\\' ∧ 32 ≤ c.toNat) :
    parseStringBody (s ++ '"' :: rest) = some (s, rest) := by
  have h2 := parseStringBody_esc s rest (fun c hc => ⟨(h c hc).1, (h c hc).2.2⟩)
  rwa [escChars_id s (fun c hc => (h c hc).2.1)] at h2

theorem pv_unfold (fuel : Nat) (c : Char) (rest : List Char) (h : isWsChar c = false) :
    parseCore (fuel + 1) ParseMode.val (c :: rest)
      = (if c = '"' then
           match parseStringBody rest with
           | none => none
           | some (s, r) => some (Json.str (String.mk s), r)
         else if c = '\x7b' then
           match skipWs rest with
           | '\x7d' :: r2 => some (Json.obj [], r2)
           | _ => parseCore fuel (ParseMode.members []) rest
         else if c = '[' then
           match skipWs rest with
           | ']' :: r2 => some (Json.arr [], r2)
           | _ => parseCore fuel (ParseMode.elems []) rest
         else if c.isDigit then
           match parseNatFrom (c :: rest) with
           | none => none
           | some (n, r) => some (Json.num n, r)
         else
           match c :: rest with
           | 'n' :: 'u' :: 'l' :: 'l' :: r => some (Json.null, r)
           | 't' :: 'r' :: 'u' :: 'e' :: r => some (Json.bool true, r)
           | 'f' :: 'a' :: 'l' :: 's' :: 'e' :: r => some (Json.bool false, r)
           | _ => none) := by
  show (match skipWs (c :: rest) with
        | [] => none
        | c :: rest =>
          if c = '"' then
            match parseStringBody rest with
            | none => none
            | some (s, r) => some (Json.str (String.mk s), r)
          else if c = '\x7b' then
            match skipWs rest with
            | '\x7d' :: r2 => some (Json.obj [], r2)
            | _ => parseCore fuel (ParseMode.members []) rest
          else if c = '[' then
            match skipWs rest with
            | ']' :: r2 => some (Json.arr [], r2)
            | _ => parseCore fuel (ParseMode.elems []) rest
          else if c.isDigit then
            match parseNatFrom (c :: rest) with
            | none => none
            | some (n, r) => some (Json.num n, r)
          else
            match c :: rest with
            | 'n' :: 'u' :: 'l' :: 'l' :: r => some (Json.null, r)
            | 't' :: 'r' :: 'u' :: 'e' :: r => some (Json.bool true, r)
            | 'f' :: 'a' :: 'l' :: 's' :: 'e' :: r => some (Json.bool false, r)
            | _ => none) = _
  rw [skipWs_not_ws _ _ h]

theorem parseVal_num (fuel : Nat) (n : Nat) (X : List Char)
    (hX : ∀ c, X.head? = some c → c.isDigit = false) :
    parseCore (fuel + 1) ParseMode.val ([' '] ++ (renderNatChars n ++ X))
      = some (Json.num n, X) := by
  obtain ⟨ds, hds, hne, hdig, hfold⟩ := renderNatAux_spec (n + 1) n [] (Nat.lt_succ_self n)
  have hrn : renderNatChars n = ds := by
    rw [renderNatChars, hds, List.append_nil]
  cases ds with
  | nil => exact absurd rfl hne
  | cons d ds' =>
    have hd := hdig d (List.mem_cons_self _ _)
    obtain ⟨hq, hbr, hbk, hws⟩ := isDigit_not_special d hd
    rw [List.singleton_append, parseVal_ws _ _ _ (by decide), hrn, List.cons_append,
        pv_unfold _ _ _ hws]
    rw [if_neg hq, if_neg hbr, if_neg hbk, if_pos hd]
    rw [show parseNatFrom (d :: (ds' ++ X)) = some (n, X) from by
      rw [← List.cons_append, ← hrn]
      exact parseNatFrom_render n X hX]

theorem head_cons_not_digit (c : Char) (l : List Char) (h : c.isDigit = false) :
    ∀ x, (c :: l).head? = some x → x.isDigit = false := by
  intro x hx
  rw [List.head?_cons] at hx
  rw [← Option.some.inj hx]
  exact h

theorem pv_entry_start' (fuel : Nat) (X s r1 r4 : List Char)
    (hX : parseStringBody X = some (s, r1)) (hr : skipWs r1 = ',' :: r4) :
    parseCore (fuel + 6) ParseMode.val (p1Chars ++ X)
      = parseCore (fuel + 4) (ParseMode.members [("name", Json.str (String.mk s))]) r4 := by
  rw [pv_entry_start fuel X s r1 hX, hr]
  rfl

theorem pv_member_sha' (fuel : Nat) (acc : List (String × Json)) (Y s r1 r4 : List Char)
    (hY : parseStringBody Y = some (s, r1)) (hr : skipWs r1 = ',' :: r4) :
    parseCore (fuel + 4) (ParseMode.members acc)
      ([' ', '"', 's', 'h', 'a', '"', ':', ' ', '"'] ++ Y)
      = parseCore (fuel + 3)
          (ParseMode.members (acc ++ [("sha", Json.str (String.mk s))])) r4 := by
  rw [pv_member_sha fuel acc Y s r1 hY, hr]
  rfl

theorem pv_member_ctime' (fuel : Nat) (acc : List (String × Json)) (Z : List Char)
    (v : Json) (r3 r4 : List Char)
    (hZ : parseCore (fuel + 2) ParseMode.val ([' '] ++ Z) = some (v, r3))
    (hr : skipWs r3 = ',' :: r4) :
    parseCore (fuel + 3) (ParseMode.members acc)
      ([' ', '"', 'c', 't', 'i', 'm', 'e', '"', ':', ' '] ++ Z)
      = parseCore (fuel + 2) (ParseMode.members (acc ++ [("ctime", v)])) r4 := by
  rw [pv_member_ctime, hZ]
  show (match skipWs r3 with
        | ',' :: r4 => parseCore (fuel + 2) (ParseMode.members (acc ++ [("ctime", v)])) r4
        | '\x7d' :: r4 => some (Json.obj (acc ++ [("ctime", v)]), r4)
        | _ => none) = _
  rw [hr]
  rfl

theorem pv_member_mtime_close (fuel : Nat) (acc : List (String × Json)) (Z : List Char)
    (v : Json) (r3 r4 : List Char)
    (hZ : parseCore (fuel + 1) ParseMode.val ([' '] ++ Z) = some (v, r3))
    (hr : skipWs r3 = '\x7d' :: r4) :
    parseCore (fuel + 2) (ParseMode.members acc)
      ([' ', '"', 'm', 't', 'i', 'm', 'e', '"', ':', ' '] ++ Z)
      = some (Json.obj (acc ++ [("mtime", v)]), r4) := by
  rw [pv_member_mtime, hZ]
  show (match skipWs r3 with
        | ',' :: r4 => parseCore (fuel + 1) (ParseMode.members (acc ++ [("mtime", v)])) r4
        | '\x7d' :: r4 => some (Json.obj (acc ++ [("mtime", v)]), r4)
        | _ => none) = _
  rw [hr]
  rfl

theorem pv_top_close (fuel : Nat) (X : List Char) (v : Json) (r3 r4 : List Char)
    (hX : parseCore (fuel + 1) ParseMode.val ([' ', '[', '\n'] ++ X) = some (v, r3))
    (hr : skipWs r3 = '\x7d' :: r4) :
    parseCore (fuel + 3) ParseMode.val (hdrChars ++ X)
      = some (Json.obj [("files", v)], r4) := by
  rw [pv_top, hX]
  show (match skipWs r3 with
        | ',' :: r4 => parseCore (fuel + 1) (ParseMode.members [("files", v)]) r4
        | '\x7d' :: r4 => some (Json.obj [("files", v)], r4)
        | _ => none) = _
  rw [hr]
  rfl

theorem pv_array_elems (fuel : Nat) (X Q : List Char) (hQ : skipWs X = '\x7b' :: Q)
    (r : Option (Json × List Char))
    (hE : parseCore fuel (ParseMode.elems []) ('\n' :: X) = r) :
    parseCore (fuel + 1) ParseMode.val ([' ', '[', '\n'] ++ X) = r := by
  rw [pv_array_pre, hQ]
  exact hE

theorem pe_step_cons (fuel : Nat) (acc : List Json) (cs : List Char) (v : Json)
    (r1 r2 : List Char)
    (h1 : parseCore fuel ParseMode.val cs = some (v, r1)) (hr : skipWs r1 = ',' :: r2) :
    parseCore (fuel + 1) (ParseMode.elems acc) cs
      = parseCore fuel (ParseMode.elems (acc ++ [v])) r2 := by
  rw [pe_step, h1]
  show (match skipWs r1 with
        | ',' :: r2 => parseCore fuel (ParseMode.elems (acc ++ [v])) r2
        | ']' :: r2 => some (Json.arr (acc ++ [v]), r2)
        | _ => none) = _
  rw [hr]
  rfl

theorem pe_step_close (fuel : Nat) (acc : List Json) (cs : List Char) (v : Json)
    (r1 r2 : List Char)
    (h1 : parseCore fuel ParseMode.val cs = some (v, r1)) (hr : skipWs r1 = ']' :: r2) :
    parseCore (fuel + 1) (ParseMode.elems acc) cs = some (Json.arr (acc ++ [v]), r2) := by
  rw [pe_step, h1]
  show (match skipWs r1 with
        | ',' :: r2 => parseCore fuel (ParseMode.elems (acc ++ [v])) r2
        | ']' :: r2 => some (Json.arr (acc ++ [v]), r2)
        | _ => none) = _
  rw [hr]
  rfl

theorem skipWs_p2 (Y : List Char) :
    skipWs (',' :: Y) = ',' :: Y := skipWs_not_ws _ _ (by decide)

theorem parseVal_entry (g : Nat) (maxLen : Nat) (k : String) (fi : file_infos)
    (rest : List Char) (hk : nameOk k) (hs : shaOk fi.sha) :
    parseCore (g + 6) ParseMode.val (entryCore maxLen k fi ++ rest)
      = some (entryJson k fi, rest) := by
  have e1 : entryCore maxLen k fi ++ rest
      = p1Chars ++ (escChars k.data ++ ('"' ::
          (List.replicate (maxLen - (escChars k.data ++ ['"']).length) ' '
            ++ (',' :: ([' ', '"', 's', 'h', 'a', '"', ':', ' ', '"']
            ++ (fi.sha.data ++ ('"' :: (',' :: ([' ', '"', 'c', 't', 'i', 'm', 'e', '"', ':', ' ']
            ++ (renderNatChars fi.ctime ++ (',' :: ([' ', '"', 'm', 't', 'i', 'm', 'e', '"', ':', ' ']
            ++ (renderNatChars fi.mtime ++ (' ' :: ('\x7d' :: rest))))))))))))))) := by
    simp [entryCore, padRight, p1Chars, p2Chars, p3Chars, p4Chars, p5Chars,
      List.append_assoc, List.cons_append, List.singleton_append]
  rw [e1]
  rw [pv_entry_start' g _ _ _ _ (parseStringBody_esc k.data _ hk)
      (by rw [skipWs_replicate]; exact skipWs_p2 _)]
  rw [pv_member_sha' _ _ _ _ _ _ (parseStringBody_raw fi.sha.data _ hs) (skipWs_p2 _)]
  rw [pv_member_ctime' _ _ _ _ _ _
      (parseVal_num (g + 1) fi.ctime _ (head_cons_not_digit ',' _ (by decide)))
      (skipWs_p2 _)]
  rw [pv_member_mtime_close _ _ _ _ _ _
      (parseVal_num g fi.mtime _ (head_cons_not_digit ' ' _ (by decide)))
      (by rw [skipWs_ws _ _ (by decide)]; exact skipWs_not_ws _ _ (by decide))]
  rfl

theorem parseElems_entries (maxLen : Nat) (last : String) :
    ∀ (fs' : List (String × file_infos)) (g : Nat) (acc : List Json),
    fs' ≠ [] →
    (∀ kv ∈ fs', nameOk kv.1 ∧ shaOk kv.2.sha) →
    (∀ kv ∈ fs'.dropLast, kv.1 ≠ last) →
    (∀ z, fs'.getLast? = some z → z.1 = last) →
    parseCore (fs'.length + 6 + g) (ParseMode.elems acc)
      ('\n' :: (((fs'.map (fun kv => entryChars maxLen last kv.1 kv.2)).flatten) ++ ftrChars))
      = some (Json.arr (acc ++ fs'.map (fun kv => entryJson kv.1 kv.2)), ['\n', '\x7d']) := by
  intro fs'
  induction fs' with
  | nil => intro g acc h; exact absurd rfl h
  | cons x t ih =>
    intro g acc _ hsafe hmid hlast
    have hmem : x ∈ x :: t := List.mem_cons_self _ _
    cases t with
    | nil =>
      have hx : x.1 = last := hlast x (by simp)
      have hin : ('\n' :: (((([x] : List (String × file_infos)).map
            (fun kv => entryChars maxLen last kv.1 kv.2)).flatten) ++ ftrChars))
          = '\n' :: (entryCore maxLen x.1 x.2 ++ ('\n' :: ftrChars)) := by
        simp [entryChars, hx, List.append_assoc]
      rw [hin]
      have hf : ([x] : List (String × file_infos)).length + 6 + g = (g + 6) + 1 := by
        simp only [List.length_cons, List.length_nil]
        omega
      rw [hf]
      have hv : parseCore (g + 6) ParseMode.val
          ('\n' :: (entryCore maxLen x.1 x.2 ++ ('\n' :: ftrChars)))
          = some (entryJson x.1 x.2, '\n' :: ftrChars) := by
        rw [parseVal_ws _ _ _ (by decide)]
        exact parseVal_entry g maxLen x.1 x.2 _ (hsafe x hmem).1 (hsafe x hmem).2
      rw [pe_step_close _ _ _ _ _ _ hv skipWs_ftr]
      simp
    | cons y t' =>
      have hx : x.1 ≠ last := hmid x (by rw [List.dropLast_cons₂]; exact List.mem_cons_self _ _)
      have hin : ('\n' :: ((((x :: y :: t').map
            (fun kv => entryChars maxLen last kv.1 kv.2)).flatten) ++ ftrChars))
          = '\n' :: (entryCore maxLen x.1 x.2 ++ (',' :: ('\n' ::
              ((((y :: t').map (fun kv => entryChars maxLen last kv.1 kv.2)).flatten)
                ++ ftrChars)))) := by
        simp [entryChars, hx, List.append_assoc]
      rw [hin]
      have hf : (x :: y :: t').length + 6 + g = ((y :: t').length + 6 + g) + 1 := by
        simp only [List.length_cons]
        omega
      rw [hf]
      have hv : parseCore ((y :: t').length + 6 + g) ParseMode.val
          ('\n' :: (entryCore maxLen x.1 x.2 ++ (',' :: ('\n' ::
              ((((y :: t').map (fun kv => entryChars maxLen last kv.1 kv.2)).flatten)
                ++ ftrChars)))))
          = some (entryJson x.1 x.2, ',' :: ('\n' ::
              ((((y :: t').map (fun kv => entryChars maxLen last kv.1 kv.2)).flatten)
                ++ ftrChars))) := by
        rw [parseVal_ws _ _ _ (by decide)]
        have hf2 : (y :: t').length + 6 + g = ((y :: t').length + g) + 6 := by omega
        rw [hf2]
        exact parseVal_entry _ maxLen x.1 x.2 _ (hsafe x hmem).1 (hsafe x hmem).2
      rw [pe_step_cons _ _ _ _ _ _ hv (skipWs_p2 _)]
      rw [ih g (acc ++ [entryJson x.1 x.2]) (by simp)
          (fun kv hkv => hsafe kv (List.mem_cons_of_mem _ hkv))
          (fun kv hkv => hmid kv (by rw [List.dropLast_cons₂]; exact List.mem_cons_of_mem _ hkv))
          (fun z hz => hlast z (by rw [List.getLast?_cons_cons]; exact hz))]
      simp [List.append_assoc]

theorem skipWs_entryChars (maxLen : Nat) (last k : String) (fi : file_infos) (R : List Char) :
    ∃ Q, skipWs (entryChars maxLen last k fi ++ R) = '\x7b' :: Q := by
  have hre : entryChars maxLen last k fi ++ R
      = p1Chars ++ ((padRight (escChars k.data ++ ['"']) maxLen ++ (p2Chars ++ (fi.sha.data
          ++ (p3Chars ++ (renderNatChars fi.ctime ++ (p4Chars ++ (renderNatChars fi.mtime
          ++ (p5Chars ++ ((if k = last then [] else [',']) ++ (['\n'] ++ R))))))))))) := by
    simp [entryChars, entryCore, List.append_assoc]
  rw [hre]
  exact ⟨_, skipWs_p1 _⟩

theorem dropLast_ne_last (fs : List (String × file_infos)) (hne : fs ≠ [])
    (hnodup : (fs.map Prod.fst).Nodup) :
    (∀ kv ∈ fs.dropLast, kv.1 ≠ lastKey fs)
    ∧ (∀ z, fs.getLast? = some z → z.1 = lastKey fs) := by
  constructor
  · intro kv hkv heq
    have hsplit : fs.dropLast ++ [fs.getLast hne] = fs := List.dropLast_append_getLast hne
    have hlk : lastKey fs = (fs.getLast hne).1 := by
      rw [lastKey, List.getLast?_eq_getLast fs hne]
    rw [← hsplit, List.map_append] at hnodup
    have hd := (List.nodup_append.mp hnodup).2.2
    exact hd (List.mem_map_of_mem Prod.fst hkv)
      (by rw [List.map_singleton, ← hlk, ← heq]; exact List.mem_singleton_self _)
  · intro z hz
    rw [lastKey, hz]

theorem entryChars_length_pos (maxLen : Nat) (last k : String) (fi : file_infos) :
    1 ≤ (entryChars maxLen last k fi).length := by
  simp [entryChars]
  omega

theorem flatten_entries_length (fs : List (String × file_infos)) (maxLen : Nat)
    (last : String) :
    fs.length ≤ ((fs.map (fun kv => entryChars maxLen last kv.1 kv.2)).flatten).length := by
  induction fs with
  | nil => simp
  | cons x t ih =>
    simp only [List.map_cons, List.flatten_cons, List.length_append, List.length_cons]
    have := entryChars_length_pos maxLen last x.1 x.2
    omega

theorem saveChars_length (fs : List (String × file_infos)) :
    fs.length + 20 ≤ (saveChars fs).length := by
  have h := flatten_entries_length fs (maxKeyLen fs) (lastKey fs)
  simp only [saveChars, List.length_append, hdrChars, ftrChars]
  simp only [List.length_cons, List.length_nil]
  omega

theorem parseVal_save (fs : List (String × file_infos)) (g : Nat)
    (hne : fs ≠ []) (hnodup : (fs.map Prod.fst).Nodup)
    (hsafe : ∀ kv ∈ fs, nameOk kv.1 ∧ shaOk kv.2.sha) :
    parseCore ((fs.length + 6 + g) + 3) ParseMode.val (saveChars fs)
      = some (Json.obj [("files",
          Json.arr (fs.map (fun kv => entryJson kv.1 kv.2)))], []) := by
  obtain ⟨hmid, hlast⟩ := dropLast_ne_last fs hne hnodup
  have hsplit : saveChars fs = hdrChars
      ++ (((fs.map (fun kv => entryChars (maxKeyLen fs) (lastKey fs) kv.1 kv.2)).flatten)
        ++ ftrChars) := by
    simp [saveChars, List.append_assoc]
  rw [hsplit]
  have hE := parseElems_entries (maxKeyLen fs) (lastKey fs) fs g []
    hne hsafe hmid hlast
  have hQ : ∃ Q, skipWs
      (((fs.map (fun kv => entryChars (maxKeyLen fs) (lastKey fs) kv.1 kv.2)).flatten)
        ++ ftrChars) = '\x7b' :: Q := by
    cases fs with
    | nil => exact absurd rfl hne
    | cons x t =>
      rw [List.map_cons, List.flatten_cons, List.append_assoc]
      exact skipWs_entryChars (maxKeyLen (x :: t)) (lastKey (x :: t)) x.1 x.2 _
  obtain ⟨Q, hQ⟩ := hQ
  have harr := pv_array_elems (fs.length + 6 + g) _ Q hQ _ hE
  rw [pv_top_close (fs.length + 6 + g) _ _ _ _ harr skipWs_tail2]
  simp


theorem parseJson_save (fs : List (String × file_infos))
    (hne : fs ≠ []) (hnodup : (fs.map Prod.fst).Nodup)
    (hsafe : ∀ kv ∈ fs, nameOk kv.1 ∧ shaOk kv.2.sha) :
    parseJson (saveContent fs)
      = some (Json.obj [("files",
          Json.arr (fs.map (fun kv => entryJson kv.1 kv.2)))]) := by
  have hlen := saveChars_length fs
  obtain ⟨d, hd⟩ : ∃ d, (saveChars fs).length + 1 = (fs.length + 6 + d) + 3 :=
    ⟨(saveChars fs).length + 1 - (fs.length + 9), by omega⟩
  have h0 : parseJson (saveContent fs)
      = (match parseCore ((saveChars fs).length + 1) ParseMode.val (saveChars fs) with
         | some (v, r) => if (skipWs r).isEmpty then some v else none
         | none => none) := rfl
  rw [h0, hd, parseVal_save fs d hne hnodup hsafe]
  rfl

theorem filterMap_entryJson (fs : List (String × file_infos)) :
    (fs.map (fun kv => entryJson kv.1 kv.2)).filterMap entryFields
      = fs.map (fun kv => (kv.1, kv.2.sha, kv.2.ctime, kv.2.mtime)) := by
  induction fs with
  | nil => rfl
  | cons x t ih =>
    rw [List.map_cons, List.map_cons,
        List.filterMap_cons_some (show entryFields (entryJson x.1 x.2)
          = some (x.1, x.2.sha, x.2.ctime, x.2.mtime) from rfl), ih]

/-- C6 amended: for every non-empty snapshot whose path keys contain no
    double quote and no control character, and whose fingerprints contain
    no double quote, backslash, or control character, saving the snapshot
    and loading the produced file text reproduces the snapshot's entries
    exactly: same paths, same fingerprints, same 64-bit timestamps. -/
theorem save_load_round_trip (fs : List (String × file_infos))
    (hne : fs ≠ []) (hnodup : (fs.map Prod.fst).Nodup)
    (hsafe : ∀ kv ∈ fs, nameOk kv.1 ∧ shaOk kv.2.sha) :
    loadEntries (saveContent fs)
      = some (fs.map (fun kv => (kv.1, kv.2.sha, kv.2.ctime, kv.2.mtime))) := by
  have h0 : loadEntries (saveContent fs)
      = (match parseJson (saveContent fs) with
         | none => none
         | some db =>
           match getFiles db with
           | none => none
           | some es => some (es.filterMap entryFields)) := rfl
  rw [h0, parseJson_save fs hne hnodup hsafe]
  show some ((fs.map (fun kv => entryJson kv.1 kv.2)).filterMap entryFields) = _
  rw [filterMap_entryJson]

/-- Counterexample to C6 as stated: the serializer escapes nothing in the
    fingerprint string, so a snapshot whose fingerprint contains a double
    quote produces a file the parser rejects: the round trip loses the
    snapshot entirely. -/
theorem round_trip_cex :
    ([("a", (⟨"\"", 1, 2⟩ : file_infos))] : List (String × file_infos)) ≠ []
    ∧ loadEntries (saveContent [("a", ⟨"\"", 1, 2⟩)]) = none := by
  constructor
  · intro h; exact List.noConfusion h
  · rfl

/-- Witness for `save_load_round_trip` on a two-entry snapshot whose first
    key contains a backslash. -/
theorem save_load_round_trip_witness :
    loadEntries (saveContent [("dir\\a.txt", ⟨"ab12", 100, 23456⟩), ("z", ⟨"ff", 0, 3⟩)])
      = some [("dir\\a.txt", "ab12", 100, 23456), ("z", "ff", 0, 3)] :=
  save_load_round_trip [("dir\\a.txt", ⟨"ab12", 100, 23456⟩), ("z", ⟨"ff", 0, 3⟩)]
    (by decide) (by decide) (by decide)
